import Mathlib

/-!
Verification development for the pixas-web pixelation core.

The definitions below are shallow embeddings of the TypeScript sources:

* apps/web/src/routes/index.tsx : palette color-string parsing
  (hexToRgbaComponents) and the flattened palette built from the selected
  entries (selectedPaletteArray).  JavaScript strings are modelled as
  List Char; a JavaScript number that may be NaN is modelled as Option Int
  with none standing for NaN (Number.parseInt returns NaN exactly when no
  digit of the radix is found at the start of the trimmed input).
* apps/web/src/workers/pixelate.worker.ts : the job-control state machine
  (activeJobId / lastRenderedJobId / session fields, handleProcessMessage,
  handleGenerateBlobMessage, cancel handling), tile-grid dimensions
  (computeTilesDimension), the classic RGB color mapper
  (mapImageDataToPaletteClassic) and the perceptual CIELAB/CIEDE2000 mapper
  (mapImageDataToPalette) with its helpers (srgbToLinearComponent, rgbToXyz,
  xyzToLab, rgbToLab, hueAngle, deltaHue, deltaE00, hueWeightAt).

Pixel buffers (Uint8ClampedArray / ImageData data) are flat RGBA byte lists
(List Nat, values 0..255, fours are one pixel).  Floating point arithmetic is
modelled over the real numbers; Math.atan2 is Complex.arg, Math.hypot a b is
Real.sqrt (a^2 + b^2), Math.cbrt is used only on positive arguments and is
modelled as rpow by 1/3.
-/

/-! ## Palette color-string parsing (routes/index.tsx) -/

/-- The set of characters stripped by String.prototype.trim and skipped by
parseInt (modelled on the common ASCII whitespace characters). -/
def isWS (c : Char) : Bool :=
  c = ' ' ∨ c = '\t' ∨ c = '\n' ∨ c = '\r' ∨ c = '\x0b' ∨ c = '\x0c'

/-- Value of one hexadecimal digit character, none when the character is not
a hexadecimal digit. -/
def hexDigitVal (c : Char) : Option Nat :=
  if '0' ≤ c ∧ c ≤ '9' then some (c.toNat - '0'.toNat)
  else if 'a' ≤ c ∧ c ≤ 'f' then some (c.toNat - 'a'.toNat + 10)
  else if 'A' ≤ c ∧ c ≤ 'F' then some (c.toNat - 'A'.toNat + 10)
  else none

/-- Accumulate the longest run of hexadecimal digits, as parseInt does after
its preprocessing. -/
def hexDigitsRun : List Char → Nat → Nat
  | [], acc => acc
  | c :: rest, acc =>
    match hexDigitVal c with
    | some v => hexDigitsRun rest (acc * 16 + v)
    | none => acc

/-- Digits-part of parseInt with radix 16: none (NaN) when the first
character is not a hexadecimal digit. -/
def parseHexDigits (s : List Char) : Option Nat :=
  match s with
  | [] => none
  | c :: _ => if (hexDigitVal c).isSome then some (hexDigitsRun s 0) else none

/-- parseInt with radix 16 also accepts an optional 0x / 0X prefix. -/
def strip0x (s : List Char) : List Char :=
  match s with
  | c0 :: c1 :: rest => if c0 = '0' ∧ (c1 = 'x' ∨ c1 = 'X') then rest else s
  | _ => s

/-- Number.parseInt(s, 16): skip leading whitespace, optional sign, optional
0x prefix, then the longest run of hexadecimal digits; none models NaN. -/
def parseIntHex (s : List Char) : Option Int :=
  let t := s.dropWhile isWS
  if t.headD ' ' = '-' then (parseHexDigits (strip0x t.tail)).map (fun n => -(n : Int))
  else if t.headD ' ' = '+' then (parseHexDigits (strip0x t.tail)).map (fun n => (n : Int))
  else (parseHexDigits (strip0x t)).map (fun n => (n : Int))

/-- String.prototype.toLowerCase on the characters of the string. -/
def jsToLower (s : List Char) : List Char := s.map Char.toLower

/-- String.prototype.trim: whitespace stripped from both ends. -/
def jsTrim (s : List Char) : List Char :=
  (((s.dropWhile isWS).reverse.dropWhile isWS)).reverse

/-- The h.startsWith('#') ? h.slice(1) : h step of hexToRgbaComponents. -/
def stripHash (h : List Char) : List Char :=
  if h.headD ' ' = '#' then h.tail else h

/-- hexToRgbaComponents (routes/index.tsx): the literal "transparent" maps to
RGBA (0,0,0,0); after trimming and stripping an optional leading '#', a
3-character string parses each digit duplicated with alpha 255 and a
6-character string parses the three byte pairs with alpha 255; other lengths
give null.  Each returned component is an Option Int whose none models NaN
(parseInt of a non-hex pair). -/
def hexToRgbaComponents (hex : List Char) : Option (List (Option Int)) :=
  if jsToLower hex = "transparent".toList then
    some [some 0, some 0, some 0, some 0]
  else
    let h := stripHash (jsTrim hex)
    if h.length = 3 then
      some [parseIntHex [h.getD 0 ' ', h.getD 0 ' '],
            parseIntHex [h.getD 1 ' ', h.getD 1 ' '],
            parseIntHex [h.getD 2 ' ', h.getD 2 ' '],
            some 255]
    else if h.length = 6 then
      some [parseIntHex (h.take 2),
            parseIntHex ((h.drop 2).take 2),
            parseIntHex ((h.drop 4).take 2),
            some 255]
    else none

/-- selectedPaletteArray (routes/index.tsx): entries are (key, color string)
pairs; a selected entry whose color string parses (to a non-null quadruple)
pushes its four components; finally a trailing partial quadruple would be
truncated.  Components are Option Int, none modelling NaN. -/
def selectedPaletteArray (entries : List (String × String))
    (selectedKeys : List String) : List (Option Int) :=
  let out := entries.foldl
    (fun out e =>
      if e.1 ∈ selectedKeys then
        match hexToRgbaComponents e.2.toList with
        | some rgba => out ++ rgba
        | none => out
      else out)
    []
  if out.length % 4 ≠ 0 then out.take (out.length - out.length % 4) else out

/-! ## Worker job control (pixelate.worker.ts) -/

/-- An ImageBitmap, modelled by its dimensions (pixel content is produced by
the external OffscreenCanvas drawing surface). -/
structure Bitmap where
  width : Nat
  height : Nat
deriving DecidableEq, Repr

/-- The meta record of a result message. -/
structure Meta where
  outWidth : Nat
  outHeight : Nat
  tilesX : Nat
  tilesY : Nat
  totalPixels : Nat
  blockSize : Nat
deriving DecidableEq, Repr

/-- A process message (PixelateProcessMessage); optional fields are Option. -/
structure ProcessMsg where
  jobId : Int
  blockSize : Nat
  bitmap : Option Bitmap
  colorizeEnabled : Option Bool
  advancedColorize : Option Bool
  palette : Option (List Int)
deriving DecidableEq, Repr

/-- The worker's module-level mutable state. -/
structure WorkerState where
  activeJobId : Option Int
  lastRenderedJobId : Option Int
  lastSourceBitmap : Option Bitmap
  lastBlockSize : Option Nat
  lastPalette : Option (List Nat)
  lastColorizeEnabled : Bool
  lastAdvancedColorize : Bool
deriving DecidableEq, Repr

/-- Initial worker state: all ids and session data null, both colorize flags
initialised to true. -/
def initWorkerState : WorkerState :=
  { activeJobId := none
    lastRenderedJobId := none
    lastSourceBitmap := none
    lastBlockSize := none
    lastPalette := none
    lastColorizeEnabled := true
    lastAdvancedColorize := true }

/-- Messages posted back to the main thread (payload bitmaps and blobs are
external objects; the result carries its meta record). -/
inductive OutMsg where
  | result (jobId : Int) (meta : Meta)
  | blob (jobId : Int)
deriving DecidableEq, Repr

/-- new Uint8ClampedArray clamps each element to a byte. -/
def clampByte (n : Int) : Nat := (max 0 (min 255 n)).toNat

/-- computeTilesDimension: Math.max(1, Math.ceil(width / blockSize)) in each
axis; the JavaScript float division and Math.ceil are the rational division
and ceiling. -/
def computeTilesDimension (width height blockSize : Nat) : Nat × Nat :=
  (max 1 (Nat.ceil ((width : ℚ) / (blockSize : ℚ))),
   max 1 (Nat.ceil ((height : ℚ) / (blockSize : ℚ))))

/-- A job whose synchronous compute has produced an output waiting for the
staleness check (the tail of handleProcessMessage). -/
structure PendingJob where
  jobId : Int
  meta : Meta
deriving DecidableEq, Repr

/-- The head of handleProcessMessage: record the job as active, update the
session fields from the message, and, when a source bitmap is available,
compute the tile grid and the meta record of the job's eventual result.
Returns none as second component when the handler returns early (no source;
the job then emits nothing). -/
def stepSubmit (s : WorkerState) (m : ProcessMsg) : WorkerState × Option PendingJob :=
  let s1 : WorkerState :=
    { activeJobId := some m.jobId
      lastRenderedJobId := s.lastRenderedJobId
      lastSourceBitmap := match m.bitmap with
        | some b => some b
        | none => s.lastSourceBitmap
      lastBlockSize := some m.blockSize
      lastPalette := match m.palette with
        | some p => if 4 ≤ p.length then some (p.map clampByte) else none
        | none => none
      lastColorizeEnabled := m.colorizeEnabled.getD true
      lastAdvancedColorize := m.advancedColorize.getD true }
  match s1.lastSourceBitmap with
  | none => (s1, none)
  | some src =>
    let t := computeTilesDimension src.width src.height m.blockSize
    (s1, some { jobId := m.jobId
                meta := { outWidth := t.1
                          outHeight := t.2
                          tilesX := t.1
                          tilesY := t.2
                          totalPixels := t.1 * t.2
                          blockSize := m.blockSize } })

/-- The tail of handleProcessMessage: if a newer job started while this one
computed, drop the result; otherwise record the job as last rendered and
post the result. -/
def stepFinish (s : WorkerState) (p : PendingJob) : WorkerState × List OutMsg :=
  if s.activeJobId = some p.jobId then
    ({ s with lastRenderedJobId := some p.jobId }, [OutMsg.result p.jobId p.meta])
  else (s, [])

/-- The cancel branch of ctx.onmessage. -/
def stepCancel (s : WorkerState) (jobId : Int) : WorkerState :=
  if s.activeJobId = some jobId then { s with activeJobId := none } else s

/-- handleGenerateBlobMessage: a silent no-op unless the requested id is the
last rendered job id and a source bitmap and block size are in session
state; on success the session state is read but never written. -/
def stepGenerateBlob (s : WorkerState) (jobId : Int) : WorkerState × List OutMsg :=
  if s.lastRenderedJobId = some jobId ∧ s.lastSourceBitmap ≠ none ∧
      s.lastBlockSize ≠ none then
    (s, [OutMsg.blob jobId])
  else (s, [])

/-- One worker-loop event: a process message's synchronous head, a pending
job's completion (the staleness check and emission), a cancel message, or a
generateBlob message. -/
inductive WEvent where
  | submit (m : ProcessMsg)
  | finish (p : PendingJob)
  | cancel (jobId : Int)
  | generateBlob (jobId : Int)
deriving DecidableEq, Repr

/-- Effect of one event on the worker state, with the messages it posts. -/
def stepEvent (s : WorkerState) : WEvent → WorkerState × List OutMsg
  | WEvent.submit m => ((stepSubmit s m).1, [])
  | WEvent.finish p => stepFinish s p
  | WEvent.cancel j => (stepCancel s j, [])
  | WEvent.generateBlob j => stepGenerateBlob s j

/-- Run a sequence of events, accumulating posted messages in order. -/
def runEvents (s : WorkerState) : List WEvent → WorkerState × List OutMsg
  | [] => (s, [])
  | e :: es =>
    let r := stepEvent s e
    let rest := runEvents r.1 es
    (rest.1, r.2 ++ rest.2)

/-! ## Classic color mapper (mapImageDataToPaletteClassic) -/

/-- One RGBA quadruple of a Uint8ClampedArray. -/
structure Rgba where
  r : Nat
  g : Nat
  b : Nat
  a : Nat
deriving DecidableEq, Repr

instance : Inhabited Rgba := ⟨⟨0, 0, 0, 0⟩⟩

/-- View of a flat RGBA byte list as pixels; the loops of the worker step by
RGBA_STRIDE = 4 (a trailing partial quadruple is handled where it occurs). -/
def chunk4 : List Nat → List Rgba
  | r :: g :: b :: a :: rest => ⟨r, g, b, a⟩ :: chunk4 rest
  | _ => []

/-- Squared Euclidean distance over (R,G,B) only, alpha excluded. -/
def sqDistRGB (r g b : Nat) (e : Rgba) : Int :=
  ((e.r : Int) - r) * ((e.r : Int) - r) +
  ((e.g : Int) - g) * ((e.g : Int) - g) +
  ((e.b : Int) - b) * ((e.b : Int) - b)

/-- dist < bestDist, where bestDist is Number.POSITIVE_INFINITY at start
(modelled as none). -/
def distLt (d : Int) : Option Int → Bool
  | none => true
  | some bd => d < bd

/-- The inner palette scan of mapImageDataToPaletteClassic, carried out over
the palette entries (the source tracks the flat offset p = 4 * entry index;
here the entry index is tracked).  Strict comparison keeps the first
(lowest-index) entry on ties. -/
def classicScan (r g b : Nat) : List Rgba → Nat → Nat → Option Int → Nat
  | [], _, bestIdx, _ => bestIdx
  | e :: rest, i, bestIdx, bestDist =>
    let dist := sqDistRGB r g b e
    if distLt dist bestDist then classicScan r g b rest (i + 1) i (some dist)
    else classicScan r g b rest (i + 1) bestIdx bestDist

/-- Index of the chosen palette entry: scan from index 0 with bestIndex 0 and
bestDist infinity. -/
def classicBestIndex (r g b : Nat) (pal : List Rgba) : Nat :=
  classicScan r g b pal 0 0 none

/-- The per-pixel loop of mapImageDataToPaletteClassic over the flat data.
A pixel with alpha 0 is skipped entirely.  The trailing cases mirror the
JavaScript behaviour on a buffer whose length is not a multiple of 4 (reads
beyond the end are undefined, comparisons with NaN are false, writes beyond
the end are dropped); ImageData buffers always have length 4 * w * h, where
only the first case fires. -/
def classicGo (pal : List Rgba) : List Nat → List Nat
  | r :: g :: b :: a :: rest =>
    (if a = 0 then [r, g, b, a]
     else
       let e := pal.getD (classicBestIndex r g b pal) default
       [e.r, e.g, e.b, e.a]) ++ classicGo pal rest
  | [r, g, b] =>
    let e := pal.getD (classicBestIndex r g b pal) default
    [e.r, e.g, e.b]
  | [r, g] => [(pal.getD 0 default).r, (pal.getD 0 default).g]
  | [r] => [(pal.getD 0 default).r]
  | [] => []

/-- mapImageDataToPaletteClassic: with fewer than 4 palette bytes the data is
returned untouched; otherwise every pixel with non-zero alpha is replaced by
the nearest palette entry in RGB (full RGBA written back). -/
def mapImageDataToPaletteClassic (palette : List Nat) (d : List Nat) : List Nat :=
  if palette.length < 4 then d else classicGo (chunk4 palette) d

/-! ## Color space conversion (real-number model of the float math) -/

/-- A CIELAB triple. -/
structure Lab where
  L : ℝ
  a : ℝ
  b : ℝ

/-- Math.hypot on two arguments. -/
noncomputable def hypotR (a b : ℝ) : ℝ := Real.sqrt (a ^ 2 + b ^ 2)

/-- Math.atan2(y, x), with range (-pi, pi]. -/
noncomputable def atan2 (y x : ℝ) : ℝ := Complex.arg ⟨x, y⟩

/-- Math.sign. -/
noncomputable def jsSign (x : ℝ) : ℝ := if x < 0 then -1 else if 0 < x then 1 else 0

/-- srgbToLinearComponent: gamma-linearise one 0..255 channel. -/
noncomputable def srgbToLinearComponent (c : ℝ) : ℝ :=
  let cs := c / 255
  if cs ≤ 0.04045 then cs / 12.92 else ((cs + 0.055) / 1.055) ^ (2.4 : ℝ)

/-- rgbToXyz: linearise each channel and apply the D65 sRGB to XYZ matrix. -/
noncomputable def rgbToXyz (r g b : ℝ) : ℝ × ℝ × ℝ :=
  let rl := srgbToLinearComponent r
  let gl := srgbToLinearComponent g
  let bl := srgbToLinearComponent b
  (0.4124564 * rl + 0.3575761 * gl + 0.1804375 * bl,
   0.2126729 * rl + 0.7151522 * gl + 0.072175 * bl,
   0.0193339 * rl + 0.119192 * gl + 0.9503041 * bl)

/-- The piecewise f of xyzToLab (Math.cbrt on the upper branch, and its
arguments there are positive, so rpow by 1/3 coincides with cbrt). -/
noncomputable def labF (t : ℝ) : ℝ :=
  let d : ℝ := 6 / 29
  if t > d * d * d then t ^ ((1 : ℝ) / 3) else t / (3 * d * d) + 4 / 29

/-- xyzToLab with the D65 reference white. -/
noncomputable def xyzToLab (x y z : ℝ) : Lab :=
  let fx := labF (x / 0.95047)
  let fy := labF (y / 1.0)
  let fz := labF (z / 1.08883)
  { L := 116 * fy - 16, a := 500 * (fx - fy), b := 200 * (fy - fz) }

/-- rgbToLab composes rgbToXyz and xyzToLab. -/
noncomputable def rgbToLab (r g b : ℝ) : Lab :=
  let t := rgbToXyz r g b
  xyzToLab t.1 t.2.1 t.2.2

/-- hueAngle(a, b) = atan2(b, a). -/
noncomputable def hueAngle (a b : ℝ) : ℝ := atan2 b a

/-- deltaHue: absolute angular difference of the two hue angles, wrapped into
the range 0..pi. -/
noncomputable def deltaHue (a1 b1 a2 b2 : ℝ) : ℝ :=
  let h1 := hueAngle a1 b1
  let h2 := hueAngle a2 b2
  let dh := h1 - h2
  let dh := if dh > Real.pi then dh - 2 * Real.pi else dh
  let dh := if dh < -Real.pi then dh + 2 * Real.pi else dh
  |dh|

/-! ## CIEDE2000 (deltaE00) -/

/-- The G rotation factor of CIEDE2000 as a function of the average chroma. -/
noncomputable def gFactor (avgC : ℝ) : ℝ :=
  0.5 * (1 - Real.sqrt (avgC ^ 7 / (avgC ^ 7 + 25 ^ 7)))

/-- Hue-prime angle of one color: atan2 of b over the rotated a, shifted to
the range 0..2 pi when negative. -/
noncomputable def hPrime (b ap : ℝ) : ℝ :=
  if atan2 b ap < 0 then atan2 b ap + 2 * Real.pi else atan2 b ap

/-- The wraparound adjustment of the hue-prime difference. -/
noncomputable def dhpAdjust (dhp : ℝ) : ℝ :=
  if |dhp| > Real.pi then dhp - jsSign dhp * 2 * Real.pi else dhp

/-- Hue-prime average with its wraparound rule. -/
noncomputable def avgHpOf (h1p h2p : ℝ) : ℝ :=
  (if |h1p - h2p| > Real.pi then h1p + h2p + 2 * Real.pi else h1p + h2p) / 2

/-- The T weighting polynomial of CIEDE2000. -/
noncomputable def tFactor (avgHp : ℝ) : ℝ :=
  1 - 0.17 * Real.cos (avgHp - Real.pi / 6) + 0.24 * Real.cos (2 * avgHp) +
    0.32 * Real.cos (3 * avgHp + Real.pi / 30) -
    0.2 * Real.cos (4 * avgHp - 63 * Real.pi / 180)

/-- deltaE00 (kL = kC = kH = 1), following the worker line by line. -/
noncomputable def deltaE00 (L1 a1 b1 L2 a2 b2 : ℝ) : ℝ :=
  let avgLp := (L1 + L2) / 2
  let C1 := hypotR a1 b1
  let C2 := hypotR a2 b2
  let avgC := (C1 + C2) / 2
  let G := gFactor avgC
  let a1p := (1 + G) * a1
  let a2p := (1 + G) * a2
  let C1p := hypotR a1p b1
  let C2p := hypotR a2p b2
  let avgCp := (C1p + C2p) / 2
  let h1p := hPrime b1 a1p
  let h2p := hPrime b2 a2p
  let dhp := dhpAdjust (h2p - h1p)
  let dHp := 2 * Real.sqrt (C1p * C2p) * Real.sin (dhp / 2)
  let dLp := L2 - L1
  let dCp := C2p - C1p
  let avgHp := avgHpOf h1p h2p
  let T := tFactor avgHp
  let Sl := 1 + (0.015 * (avgLp - 50) ^ 2) / Real.sqrt (20 + (avgLp - 50) ^ 2)
  let Sc := 1 + 0.045 * avgCp
  let Sh := 1 + 0.015 * avgCp * T
  let dTheta := (30 * Real.pi) / 180 * Real.exp (-(((180 / Real.pi * avgHp - 275) / 25) ^ 2))
  let Rc := 2 * Real.sqrt (avgCp ^ 7 / (avgCp ^ 7 + 25 ^ 7))
  let Rt := -Rc * Real.sin (2 * dTheta)
  let termL := dLp / (1 * Sl)
  let termC := dCp / (1 * Sc)
  let termH := dHp / (1 * Sh)
  Real.sqrt (termL * termL + termC * termC + termH * termH + Rt * termC * termH)

/-! ## Perceptual color mapper (mapImageDataToPalette) -/

/-- Perceptual mapping parameters of the worker. -/
noncomputable def TAU_L_LAB : ℝ := 3.0

/-- Chroma ramp threshold. -/
noncomputable def TAU_C_LAB : ℝ := 3.0

/-- Lightness ramp scale. -/
noncomputable def LAMBDA_L : ℝ := 0.7

/-- Chroma ramp scale. -/
noncomputable def LAMBDA_C : ℝ := 0.7

/-- Hue penalty scale. -/
noncomputable def LAMBDA_H : ℝ := 0.3

/-- Sigma threshold for the hue stability weight. -/
noncomputable def HUE_SIGMA_SCALE_LAB : ℝ := 5.0

/-- Below this pixel chroma the hue penalty is disabled. -/
noncomputable def C_NEUTRAL_GATE : ℝ := 3.0

/-- Below this pixel chroma the neutral bias is applied. -/
noncomputable def C_NEUTRAL_BIAS : ℝ := 6.0

/-- Scale of the neutral bias term. -/
noncomputable def KAPPA_NEUTRAL : ℝ := 0.15

/-- Size of the shortlist of the two-pass perceptual search. -/
def K_SHORTLIST : Nat := 8

/-- One precomputed palette entry: Lab, chroma, hue, and the original RGBA
bytes retained for write-back (PaletteLab of the worker). -/
structure PaletteLab where
  L : ℝ
  a : ℝ
  b : ℝ
  C : ℝ
  hue : ℝ
  r : Nat
  g : Nat
  b8 : Nat
  a8 : Nat

instance : Inhabited PaletteLab := ⟨⟨0, 0, 0, 0, 0, 0, 0, 0, 0⟩⟩

/-- The per-job palette precompute loop of mapImageDataToPalette. -/
noncomputable def paletteLabOf (palette : List Nat) : List PaletteLab :=
  (chunk4 palette).map (fun e =>
    let lab := rgbToLab e.r e.g e.b
    { L := lab.L, a := lab.a, b := lab.b
      C := hypotR lab.a lab.b
      hue := hueAngle lab.a lab.b
      r := e.r, g := e.g, b8 := e.b, a8 := e.a })

/-- The image Lab precompute (Larr): a fully transparent pixel stores 0. -/
noncomputable def LarrOf (d : List Nat) (idx : Nat) : ℝ :=
  if d.getD (4 * idx + 3) 0 = 0 then 0
  else (rgbToLab (d.getD (4 * idx) 0) (d.getD (4 * idx + 1) 0) (d.getD (4 * idx + 2) 0)).L

/-- The image Lab precompute (Aarr): a fully transparent pixel stores 0. -/
noncomputable def AarrOf (d : List Nat) (idx : Nat) : ℝ :=
  if d.getD (4 * idx + 3) 0 = 0 then 0
  else (rgbToLab (d.getD (4 * idx) 0) (d.getD (4 * idx + 1) 0) (d.getD (4 * idx + 2) 0)).a

/-- The image Lab precompute (Barr): a fully transparent pixel stores 0. -/
noncomputable def BarrOf (d : List Nat) (idx : Nat) : ℝ :=
  if d.getD (4 * idx + 3) 0 = 0 then 0
  else (rgbToLab (d.getD (4 * idx) 0) (d.getD (4 * idx + 1) 0) (d.getD (4 * idx + 2) 0)).b

/-- The (a, b) samples visited by hueWeightAt: the 3 by 3 window around
(x, y) clamped to the buffer bounds; the window test looks only at bounds,
never at alpha, so a transparent neighbour contributes its stored (0, 0). -/
noncomputable def hueSamples (width height : Nat) (d : List Nat) (x y : Nat) :
    List (ℝ × ℝ) :=
  ([-1, 0, 1] : List Int).flatMap (fun dy =>
    let yy := (y : Int) + dy
    if yy < 0 ∨ (height : Int) ≤ yy then []
    else
      ([-1, 0, 1] : List Int).filterMap (fun dx =>
        let xx := (x : Int) + dx
        if xx < 0 ∨ (width : Int) ≤ xx then none
        else some (AarrOf d (yy.toNat * width + xx.toNat),
                   BarrOf d (yy.toNat * width + xx.toNat))))

/-- hueWeightAt: population variance of the windowed a and b samples,
sigma = sqrt(varA + varB), weight = 1 - min(1, sigma / 5). -/
noncomputable def hueWeightAt (width height : Nat) (d : List Nat) (x y : Nat) : ℝ :=
  let s := hueSamples width height d x y
  let count : ℝ := s.length
  if s.length = 0 then 0
  else
    let sumA := (s.map Prod.fst).sum
    let sumB := (s.map Prod.snd).sum
    let sumAA := (s.map (fun p => p.1 * p.1)).sum
    let sumBB := (s.map (fun p => p.2 * p.2)).sum
    let meanA := sumA / count
    let meanB := sumB / count
    let varA := max 0 (sumAA / count - meanA * meanA)
    let varB := max 0 (sumBB / count - meanB * meanB)
    let sigma := Real.sqrt (varA + varB)
    1 - min 1 (sigma / HUE_SIGMA_SCALE_LAB)

/-- topScore[k] > worstVal comparison of the shortlist insertion, where a
score none is Number.POSITIVE_INFINITY. -/
def oGt : Option ℝ → Option ℝ → Prop
  | none, none => False
  | none, some _ => True
  | some _, none => False
  | some x, some y => y < x

/-- base < bound comparison against a possibly-infinite bound. -/
def oLtR (x : ℝ) : Option ℝ → Prop
  | none => True
  | some y => x < y

open Classical in
/-- The worst-of-K scan: first slot attaining the maximal score, starting
from worstK = 0, worstVal = -1.  Slots are (palette index or -1, score),
score none standing for infinity. -/
noncomputable def worstOfSlots (slots : List (Int × Option ℝ)) : Nat × Option ℝ :=
  (List.range slots.length).foldl
    (fun acc k =>
      if oGt (slots.getD k ((-1 : Int), none)).2 acc.2
      then (k, (slots.getD k ((-1 : Int), none)).2)
      else acc)
    (0, some (-1))

open Classical in
/-- Insert one candidate into the shortlist if its raw distance beats the
current worst slot. -/
noncomputable def insertTopK (slots : List (Int × Option ℝ)) (pi : Nat) (base : ℝ) :
    List (Int × Option ℝ) :=
  let w := worstOfSlots slots
  if oLtR base w.2 then slots.set w.1 ((pi : Int), some base) else slots

/-- First pass of the per-pixel search: shortlist the K_SHORTLIST palette
entries of smallest raw deltaE00, scanning the palette in order.  Slots
start as (-1, infinity). -/
noncomputable def shortlistSlots (Lr ar br : ℝ) (pal : List PaletteLab) :
    List (Int × Option ℝ) :=
  pal.enum.foldl
    (fun slots pe => insertTopK slots pe.1 (deltaE00 Lr ar br pe.2.L pe.2.a pe.2.b))
    (List.replicate K_SHORTLIST ((-1 : Int), (none : Option ℝ)))

open Classical in
/-- Adjusted cost of one shortlisted candidate in the refinement pass. -/
noncomputable def refineCost (Lr ar br Cr hWeight : ℝ) (pcol : PaletteLab) (base : ℝ) : ℝ :=
  let dL := |Lr - pcol.L|
  let Lpen := LAMBDA_L * max 0 (dL - TAU_L_LAB)
  let dC := |Cr - pcol.C|
  let Cpen := LAMBDA_C * max 0 (dC - TAU_C_LAB)
  let Hpen := if C_NEUTRAL_GATE ≤ Cr
    then LAMBDA_H * hWeight * (1 - Real.cos (deltaHue ar br pcol.a pcol.b)) else 0
  let neutralBias := if Cr < C_NEUTRAL_BIAS then KAPPA_NEUTRAL * pcol.C else 0
  base + Lpen + Cpen + Hpen + neutralBias

open Classical in
/-- One step of the refinement loop over the shortlist slots. -/
noncomputable def refineStep (Lr ar br Cr hWeight : ℝ) (pal : List PaletteLab)
    (acc : Nat × Option ℝ) (slot : Int × Option ℝ) : Nat × Option ℝ :=
  if slot.1 < 0 then acc
  else
    let pcol := pal.getD slot.1.toNat default
    let base := slot.2.getD 0
    let cost := refineCost Lr ar br Cr hWeight pcol base
    if oLtR cost acc.2 then (slot.1.toNat, some cost) else acc

open Classical in
/-- Second pass: fold the refinement step over the slots, starting from
bestPi = topIdx[0] when valid (0 otherwise) and bestCost infinity. -/
noncomputable def refineFold (Lr ar br Cr hWeight : ℝ) (pal : List PaletteLab)
    (slots : List (Int × Option ℝ)) : Nat × Option ℝ :=
  let s0 := slots.getD 0 ((-1 : Int), none)
  let init : Nat := if 0 ≤ s0.1 then s0.1.toNat else 0
  slots.foldl (refineStep Lr ar br Cr hWeight pal) (init, none)

/-- Index of the candidate written back to the pixel. -/
noncomputable def refineBest (Lr ar br Cr hWeight : ℝ) (pal : List PaletteLab)
    (slots : List (Int × Option ℝ)) : Nat :=
  (refineFold Lr ar br Cr hWeight pal slots).1

/-- Shortlist of pixel idx of the image, fed from the Lab precompute. -/
noncomputable def pixelShortlist (palette d : List Nat) (idx : Nat) :
    List (Int × Option ℝ) :=
  shortlistSlots (LarrOf d idx) (AarrOf d idx) (BarrOf d idx) (paletteLabOf palette)

/-- Cr = Math.hypot(ar, br) of pixel idx. -/
noncomputable def pixelChroma (d : List Nat) (idx : Nat) : ℝ :=
  hypotR (AarrOf d idx) (BarrOf d idx)

/-- The bestPi chosen for pixel idx (at x = idx mod width, y = idx / width). -/
noncomputable def pixelBest (width height : Nat) (palette d : List Nat) (idx : Nat) : Nat :=
  refineBest (LarrOf d idx) (AarrOf d idx) (BarrOf d idx) (pixelChroma d idx)
    (hueWeightAt width height d (idx % width) (idx / width))
    (paletteLabOf palette) (pixelShortlist palette d idx)

/-- Adjusted cost charged to one shortlist slot in the refinement pass: the
stored raw distance of the slot plus the penalty terms against the palette
entry the slot points at. -/
noncomputable def slotCost (Lr ar br Cr hWeight : ℝ) (pal : List PaletteLab)
    (slot : Int × Option ℝ) : ℝ :=
  refineCost Lr ar br Cr hWeight (pal.getD slot.1.toNat default) (slot.2.getD 0)

open Classical in
/-- The four bytes written for pixel idx of the main mapping loop: a pixel
with alpha 0 is carried through unmodified, any other pixel receives the
full RGBA of the chosen palette entry. -/
noncomputable def perceptualPixel (width height : Nat) (palette d : List Nat)
    (idx : Nat) : List Nat :=
  let a8 := d.getD (4 * idx + 3) 0
  if a8 = 0 then
    [d.getD (4 * idx) 0, d.getD (4 * idx + 1) 0, d.getD (4 * idx + 2) 0, a8]
  else
    let best := (paletteLabOf palette).getD (pixelBest width height palette d idx) default
    [best.r, best.g, best.b8, best.a8]

/-- Concatenate the outputs of pixels 0 .. n-1 in loop order. -/
noncomputable def buildPixels (f : Nat → List Nat) : Nat → List Nat
  | 0 => []
  | n + 1 => buildPixels f n ++ f n

/-- mapImageDataToPalette: with fewer than 4 palette bytes the data is
returned untouched; otherwise each pixel of the width by height grid is
mapped in place (the main loop reads only the Lab precompute of the original
data and the pixel's own still-unwritten alpha, so the in-place update
equals this per-pixel rebuild on a well-formed buffer of length
4 * width * height). -/
noncomputable def mapImageDataToPalette (width height : Nat) (palette d : List Nat) :
    List Nat :=
  if palette.length < 4 then d
  else buildPixels (perceptualPixel width height palette d) (width * height) ++
    d.drop (4 * (width * height))

/-! ## Theorems: worker job control -/

/-- Rational ceiling of a division of naturals as natural division. -/
lemma ceil_div_eq (W b : Nat) (hb : 0 < b) :
    Nat.ceil ((W : ℚ) / (b : ℚ)) = (W + b - 1) / b := by
  have hbQ : (0 : ℚ) < (b : ℚ) := by exact_mod_cast hb
  apply le_antisymm
  · rw [Nat.ceil_le, div_le_iff₀ hbQ]
    have h1 : W ≤ (W + b - 1) / b * b := by
      have hdm := Nat.div_add_mod' (W + b - 1) b
      have hmod : (W + b - 1) % b < b := Nat.mod_lt _ hb
      set q := (W + b - 1) / b * b with hq
      set r := (W + b - 1) % b with hr
      omega
    exact_mod_cast h1
  · have h2 : (W : ℚ) ≤ (Nat.ceil ((W : ℚ) / (b : ℚ)) : ℚ) * b := by
      have := Nat.le_ceil ((W : ℚ) / (b : ℚ))
      rwa [div_le_iff₀ hbQ] at this
    have h3 : W ≤ Nat.ceil ((W : ℚ) / (b : ℚ)) * b := by exact_mod_cast h2
    rw [Nat.div_le_iff_le_mul_add_pred hb]
    set c := Nat.ceil ((W : ℚ) / (b : ℚ)) with hc
    rw [Nat.mul_comm] at h3
    set p := b * c with hp
    omega

/-- C8: for all positive W, H and b the tile grid is
(max 1 (ceil (W / b)), max 1 (ceil (H / b))) — equivalently the natural
ceiling divisions — hence at least 1 by 1, and the pending result of a
process message carrying a W by H source at block size b has meta with
outWidth = tilesX, outHeight = tilesY and totalPixels = tilesX * tilesY. -/
theorem tiles_dimension_spec (W H b : Nat) (hW : 0 < W) (hH : 0 < H) (hb : 0 < b)
    (s : WorkerState) (m : ProcessMsg) (hmb : m.blockSize = b)
    (hbm : m.bitmap = some ⟨W, H⟩) :
    (computeTilesDimension W H b).1 = max 1 ((W + b - 1) / b) ∧
    (computeTilesDimension W H b).2 = max 1 ((H + b - 1) / b) ∧
    1 ≤ (computeTilesDimension W H b).1 ∧
    1 ≤ (computeTilesDimension W H b).2 ∧
    (stepSubmit s m).2 = some
      { jobId := m.jobId
        meta := { outWidth := (computeTilesDimension W H b).1
                  outHeight := (computeTilesDimension W H b).2
                  tilesX := (computeTilesDimension W H b).1
                  tilesY := (computeTilesDimension W H b).2
                  totalPixels :=
                    (computeTilesDimension W H b).1 * (computeTilesDimension W H b).2
                  blockSize := b } } := by
  refine ⟨?_, ?_, ?_, ?_, ?_⟩
  · simp [computeTilesDimension, ceil_div_eq W b hb]
  · simp [computeTilesDimension, ceil_div_eq H b hb]
  · exact Nat.le_max_left 1 _
  · exact Nat.le_max_left 1 _
  · simp [stepSubmit, hbm, hmb]

/-- Witness for tiles_dimension_spec at the 32 by 32 source with block size
16 of the spec scenario (grid 2 by 2, totalPixels 4). -/
theorem tiles_dimension_spec_witness :
    (computeTilesDimension 32 32 16).1 = max 1 ((32 + 16 - 1) / 16) ∧
    (computeTilesDimension 32 32 16).2 = max 1 ((32 + 16 - 1) / 16) ∧
    1 ≤ (computeTilesDimension 32 32 16).1 ∧
    1 ≤ (computeTilesDimension 32 32 16).2 ∧
    (stepSubmit initWorkerState
      { jobId := 7, blockSize := 16, bitmap := some ⟨32, 32⟩,
        colorizeEnabled := none, advancedColorize := none, palette := none }).2 = some
      { jobId := 7
        meta := { outWidth := (computeTilesDimension 32 32 16).1
                  outHeight := (computeTilesDimension 32 32 16).2
                  tilesX := (computeTilesDimension 32 32 16).1
                  tilesY := (computeTilesDimension 32 32 16).2
                  totalPixels :=
                    (computeTilesDimension 32 32 16).1 * (computeTilesDimension 32 32 16).2
                  blockSize := 16 } } :=
  tiles_dimension_spec 32 32 16 (by decide) (by decide) (by decide)
    initWorkerState
    { jobId := 7, blockSize := 16, bitmap := some ⟨32, 32⟩,
      colorizeEnabled := none, advancedColorize := none, palette := none }
    rfl rfl

/-- C9: a generateBlob request emits something only when the requested id is
the last rendered job id and a source bitmap and a block size are present in
session state; when any precondition fails the handler is a silent no-op
(same state, no message), and it never writes session state in any case. -/
theorem generateBlob_guard (s : WorkerState) (j : Int) :
    ((stepGenerateBlob s j).2 ≠ [] →
      s.lastRenderedJobId = some j ∧ s.lastSourceBitmap ≠ none ∧
        s.lastBlockSize ≠ none) ∧
    (¬(s.lastRenderedJobId = some j ∧ s.lastSourceBitmap ≠ none ∧
        s.lastBlockSize ≠ none) →
      stepGenerateBlob s j = (s, [])) ∧
    (stepGenerateBlob s j).1 = s := by
  unfold stepGenerateBlob
  by_cases h : s.lastRenderedJobId = some j ∧ s.lastSourceBitmap ≠ none ∧
      s.lastBlockSize ≠ none
  · simp [h]
  · simp [h]

/-- Witness for generateBlob_guard: in the initial state a generateBlob for
id 3 is a silent no-op. -/
theorem generateBlob_guard_witness :
    stepGenerateBlob initWorkerState 3 = (initWorkerState, []) :=
  (generateBlob_guard initWorkerState 3).2.1 (by decide)

/-- The state part of stepSubmit marks the message's job id active, in both
the with-source and the no-source branch. -/
lemma stepSubmit_active (s : WorkerState) (m : ProcessMsg) :
    (stepSubmit s m).1.activeJobId = some m.jobId := by
  unfold stepSubmit
  cases hb : m.bitmap <;> cases hsrc : s.lastSourceBitmap <;> simp [hb, hsrc]

/-- If the active id differs from j and no event of the list is a process
message with job id j, the active id still differs from j afterwards. -/
lemma runEvents_active_ne (j : Int) :
    ∀ (es : List WEvent) (s : WorkerState), s.activeJobId ≠ some j →
      (∀ m, WEvent.submit m ∈ es → m.jobId ≠ j) →
      (runEvents s es).1.activeJobId ≠ some j := by
  intro es
  induction es with
  | nil => intro s hs _; simpa [runEvents] using hs
  | cons e es ih =>
    intro s hs hsub
    simp only [runEvents]
    apply ih
    · cases e with
      | submit m =>
        have hm : m.jobId ≠ j := hsub m (by simp)
        show (stepSubmit s m).1.activeJobId ≠ some j
        rw [stepSubmit_active]
        intro h
        exact hm (Option.some_injective _ h)
      | finish p =>
        simp only [stepEvent, stepFinish]
        split <;> simpa using hs
      | cancel j2 =>
        simp only [stepEvent, stepCancel]
        split <;> simp_all
      | generateBlob j2 =>
        simp only [stepEvent, stepGenerateBlob]
        split <;> simpa using hs
    · intro m hm
      exact hsub m (List.mem_cons_of_mem _ hm)

/-- C5: (i) a process message immediately makes its id the active id and its
handling head emits nothing; (ii) a pending job whose id is not active at
completion emits nothing; (iii) every event emits at most one message, so a
job (whose completion occurs once) emits at most one result; (iv) after a
cancel of the active id, the job's later completion emits nothing as long as
no other process message reuses that id in between; (v) a cancel for a
non-active id leaves the state (hence the active id) unchanged. -/
theorem job_supersession_spec :
    (∀ (s : WorkerState) (m : ProcessMsg),
      (stepEvent s (WEvent.submit m)).1.activeJobId = some m.jobId ∧
      (stepEvent s (WEvent.submit m)).2 = []) ∧
    (∀ (s : WorkerState) (p : PendingJob),
      s.activeJobId ≠ some p.jobId → (stepEvent s (WEvent.finish p)).2 = []) ∧
    (∀ (s : WorkerState) (e : WEvent), (stepEvent s e).2.length ≤ 1) ∧
    (∀ (s : WorkerState) (j : Int) (es : List WEvent) (p : PendingJob),
      s.activeJobId = some j →
      (∀ m, WEvent.submit m ∈ es → m.jobId ≠ j) →
      p.jobId = j →
      (stepEvent (runEvents (stepCancel s j) es).1 (WEvent.finish p)).2 = []) ∧
    (∀ (s : WorkerState) (j : Int),
      s.activeJobId ≠ some j → stepCancel s j = s) := by
  refine ⟨?_, ?_, ?_, ?_, ?_⟩
  · intro s m
    exact ⟨stepSubmit_active s m, rfl⟩
  · intro s p h
    simp [stepEvent, stepFinish, h]
  · intro s e
    cases e with
    | submit m => simp [stepEvent]
    | finish p =>
      simp only [stepEvent, stepFinish]
      split <;> simp
    | cancel j => simp [stepEvent]
    | generateBlob j =>
      simp only [stepEvent, stepGenerateBlob]
      split <;> simp
  · intro s j es p hactive hsub hp
    have h1 : (stepCancel s j).activeJobId ≠ some j := by
      simp [stepCancel, hactive]
    have h2 := runEvents_active_ne j es (stepCancel s j) h1 hsub
    simp [stepEvent, stepFinish, hp, h2]
  · intro s j h
    simp [stepCancel, h]

/-- Witness for job_supersession_spec: with job 1 active, cancelling 1, then
processing job 2, job 1's completion emits nothing; and a stale completion
of job 9 in the initial state emits nothing. -/
theorem job_supersession_spec_witness :
    (stepEvent
      (runEvents (stepCancel { initWorkerState with activeJobId := some 1 } 1)
        [WEvent.submit ⟨2, 8, none, none, none, none⟩]).1
      (WEvent.finish ⟨1, ⟨1, 1, 1, 1, 1, 8⟩⟩)).2 = [] ∧
    (stepEvent initWorkerState (WEvent.finish ⟨9, ⟨1, 1, 1, 1, 1, 8⟩⟩)).2 = [] := by
  constructor
  · exact job_supersession_spec.2.2.2.1 { initWorkerState with activeJobId := some 1 } 1
      [WEvent.submit ⟨2, 8, none, none, none, none⟩] ⟨1, ⟨1, 1, 1, 1, 1, 8⟩⟩
      rfl
      (by
        intro m hm
        simp only [List.mem_singleton] at hm
        cases hm
        decide)
      rfl
  · exact job_supersession_spec.2.1 initWorkerState ⟨9, ⟨1, 1, 1, 1, 1, 8⟩⟩ (by decide)

/-- Counterexample to C1: a process message with block size 5 and no bitmap
in the initial state aborts before emitting anything (no source, no pending
compute, no message), yet its execution changes the session field
lastBlockSize from none to some 5 (handleProcessMessage writes the session
fields before any staleness or source check). -/
theorem submit_without_source_mutates_session :
    (stepSubmit initWorkerState ⟨1, 5, none, none, none, none⟩).2 = none ∧
    (stepEvent initWorkerState (WEvent.submit ⟨1, 5, none, none, none, none⟩)).2 = [] ∧
    (stepEvent initWorkerState
      (WEvent.submit ⟨1, 5, none, none, none, none⟩)).1.lastBlockSize = some 5 ∧
    initWorkerState.lastBlockSize = none := by
  refine ⟨rfl, rfl, rfl, rfl⟩

/-- C1 as amended: only the last completed job id (lastRenderedJobId) is
guarded by reaching the Emitted state — any event that posts no result
message leaves it unchanged, and a stale completion changes nothing at all —
while the remaining session fields (source bitmap, block size, palette,
colorize flags) are overwritten unconditionally when a process message is
handled, before the job runs or is checked for staleness. -/
theorem lastRendered_only_on_emit :
    (∀ (s : WorkerState) (e : WEvent),
      (∀ o ∈ (stepEvent s e).2, ∀ j meta, o ≠ OutMsg.result j meta) →
      (stepEvent s e).1.lastRenderedJobId = s.lastRenderedJobId) ∧
    (∀ (s : WorkerState) (p : PendingJob),
      s.activeJobId ≠ some p.jobId → stepEvent s (WEvent.finish p) = (s, [])) ∧
    (∀ (s : WorkerState) (m : ProcessMsg),
      (stepSubmit s m).1.lastBlockSize = some m.blockSize ∧
      (stepSubmit s m).1.lastColorizeEnabled = m.colorizeEnabled.getD true ∧
      (stepSubmit s m).1.lastAdvancedColorize = m.advancedColorize.getD true ∧
      (∀ b, m.bitmap = some b → (stepSubmit s m).1.lastSourceBitmap = some b) ∧
      (∀ p, m.palette = some p → 4 ≤ p.length →
        (stepSubmit s m).1.lastPalette = some (p.map clampByte))) := by
  refine ⟨?_, ?_, ?_⟩
  · intro s e hno
    cases e with
    | submit m =>
      show (stepSubmit s m).1.lastRenderedJobId = s.lastRenderedJobId
      unfold stepSubmit
      cases hb : m.bitmap <;> cases hsrc : s.lastSourceBitmap <;> simp [hb, hsrc]
    | finish p =>
      simp only [stepEvent, stepFinish]
      split
      · next h =>
        exfalso
        exact hno (OutMsg.result p.jobId p.meta) (by simp [stepEvent, stepFinish, h])
          p.jobId p.meta rfl
      · rfl
    | cancel j =>
      simp only [stepEvent, stepCancel]
      split <;> rfl
    | generateBlob j =>
      simp only [stepEvent, stepGenerateBlob]
      split <;> rfl
  · intro s p h
    simp [stepEvent, stepFinish, h]
  · intro s m
    refine ⟨?_, ?_, ?_, ?_, ?_⟩
    · unfold stepSubmit
      cases hb : m.bitmap <;> cases hsrc : s.lastSourceBitmap <;> simp [hb, hsrc]
    · unfold stepSubmit
      cases hb : m.bitmap <;> cases hsrc : s.lastSourceBitmap <;> simp [hb, hsrc]
    · unfold stepSubmit
      cases hb : m.bitmap <;> cases hsrc : s.lastSourceBitmap <;> simp [hb, hsrc]
    · intro b hb
      unfold stepSubmit
      cases hsrc : s.lastSourceBitmap <;> simp [hb, hsrc]
    · intro p hp hlen
      unfold stepSubmit
      cases hb : m.bitmap <;> cases hsrc : s.lastSourceBitmap <;>
        simp [hb, hsrc, hp, hlen]

/-- Witness for lastRendered_only_on_emit: a cancel event posts nothing and
leaves lastRenderedJobId unchanged in the initial state, and a process
message with block size 9 sets lastBlockSize unconditionally. -/
theorem lastRendered_only_on_emit_witness :
    (stepEvent initWorkerState (WEvent.cancel 4)).1.lastRenderedJobId =
      initWorkerState.lastRenderedJobId ∧
    (stepSubmit initWorkerState ⟨2, 9, none, none, none, none⟩).1.lastBlockSize =
      some 9 := by
  constructor
  · exact lastRendered_only_on_emit.1 initWorkerState (WEvent.cancel 4)
      (by intro o ho; simp [stepEvent] at ho)
  · exact (lastRendered_only_on_emit.2.2 initWorkerState ⟨2, 9, none, none, none, none⟩).1

/-! ## Theorems: palette color-string parsing -/

/-- A hexadecimal digit character is not whitespace. -/
lemma hexDigit_not_ws {c : Char} {v : Nat} (h : hexDigitVal c = some v) :
    isWS c = false := by
  by_contra hws
  have hws' : c = ' ' ∨ c = '\t' ∨ c = '\n' ∨ c = '\r' ∨ c = '\x0b' ∨ c = '\x0c' := by
    have : isWS c = true := by simpa using hws
    simpa [isWS] using this
  rcases hws' with rfl | rfl | rfl | rfl | rfl | rfl <;> simp +decide [hexDigitVal] at h
/-- A hexadecimal digit character is none of the characters that parseInt or
the hash stripping treat specially. -/
lemma hexDigit_ne_bad {c : Char} {v : Nat} (h : hexDigitVal c = some v) :
    c ≠ '-' ∧ c ≠ '+' ∧ c ≠ '#' ∧ c ≠ 'x' ∧ c ≠ 'X' := by
  refine ⟨?_, ?_, ?_, ?_, ?_⟩ <;> rintro rfl <;> simp +decide [hexDigitVal] at h

/-- parseIntHex of a two-hex-digit string is the byte they denote. -/
lemma parseIntHex_pair {c1 c2 : Char} {v1 v2 : Nat}
    (h1 : hexDigitVal c1 = some v1) (h2 : hexDigitVal c2 = some v2) :
    parseIntHex [c1, c2] = some ((16 * v1 + v2 : Nat) : Int) := by
  have hw1 := hexDigit_not_ws h1
  obtain ⟨hm1, hp1, -, -, -⟩ := hexDigit_ne_bad h1
  obtain ⟨-, -, -, hx2, hX2⟩ := hexDigit_ne_bad h2
  simp [parseIntHex, List.dropWhile_cons, hw1, hm1, hp1, strip0x, hx2, hX2,
    parseHexDigits, h1, h2, hexDigitsRun, Nat.mul_comm]

/-- hexToRgbaComponents on a three-hex-digit string, with and without the
optional leading hash: each digit is duplicated into a byte, alpha 255. -/
lemma hexToRgba_three {c1 c2 c3 : Char} {v1 v2 v3 : Nat}
    (h1 : hexDigitVal c1 = some v1) (h2 : hexDigitVal c2 = some v2)
    (h3 : hexDigitVal c3 = some v3) :
    hexToRgbaComponents [c1, c2, c3] =
      some [some ((17 * v1 : Nat) : Int), some ((17 * v2 : Nat) : Int),
            some ((17 * v3 : Nat) : Int), some 255] ∧
    hexToRgbaComponents ['#', c1, c2, c3] =
      some [some ((17 * v1 : Nat) : Int), some ((17 * v2 : Nat) : Int),
            some ((17 * v3 : Nat) : Int), some 255] := by
  have hw1 := hexDigit_not_ws h1
  have hw3 := hexDigit_not_ws h3
  obtain ⟨-, -, hh1, -, -⟩ := hexDigit_ne_bad h1
  have e1 : parseIntHex [c1, c1] = some ((16 * v1 + v1 : Nat) : Int) :=
    parseIntHex_pair h1 h1
  have e2 : parseIntHex [c2, c2] = some ((16 * v2 + v2 : Nat) : Int) :=
    parseIntHex_pair h2 h2
  have e3 : parseIntHex [c3, c3] = some ((16 * v3 + v3 : Nat) : Int) :=
    parseIntHex_pair h3 h3
  have hv1 : (16 * v1 + v1 : Nat) = 17 * v1 := by omega
  have hv2 : (16 * v2 + v2 : Nat) = 17 * v2 := by omega
  have hv3 : (16 * v3 + v3 : Nat) = 17 * v3 := by omega
  rw [hv1] at e1; rw [hv2] at e2; rw [hv3] at e3
  have htrans3 : jsToLower [c1, c2, c3] ≠ "transparent".toList := by
    intro hEq
    have := congrArg List.length hEq
    simp [jsToLower] at this
  have htrans4 : jsToLower ['#', c1, c2, c3] ≠ "transparent".toList := by
    intro hEq
    have := congrArg List.length hEq
    simp [jsToLower] at this
  have hwh : isWS '#' = false := by decide
  have hT : jsTrim [c1, c2, c3] = [c1, c2, c3] := by
    simp [jsTrim, List.dropWhile_cons, hw1, hw3]
  have hS : stripHash [c1, c2, c3] = [c1, c2, c3] := by
    simp [stripHash, hh1]
  have hT4 : jsTrim ['#', c1, c2, c3] = ['#', c1, c2, c3] := by
    simp [jsTrim, List.dropWhile_cons, hwh, hw3]
  have hS4 : stripHash ['#', c1, c2, c3] = [c1, c2, c3] := by
    simp [stripHash]
  constructor
  · unfold hexToRgbaComponents
    rw [if_neg htrans3, hT, hS]
    simp [e1, e2, e3]
  · unfold hexToRgbaComponents
    rw [if_neg htrans4, hT4, hS4]
    simp [e1, e2, e3]

/-- hexToRgbaComponents on a six-hex-digit string, with and without the
optional leading hash: the three byte pairs, alpha 255. -/
lemma hexToRgba_six {c1 c2 c3 c4 c5 c6 : Char} {v1 v2 v3 v4 v5 v6 : Nat}
    (h1 : hexDigitVal c1 = some v1) (h2 : hexDigitVal c2 = some v2)
    (h3 : hexDigitVal c3 = some v3) (h4 : hexDigitVal c4 = some v4)
    (h5 : hexDigitVal c5 = some v5) (h6 : hexDigitVal c6 = some v6) :
    hexToRgbaComponents [c1, c2, c3, c4, c5, c6] =
      some [some ((16 * v1 + v2 : Nat) : Int), some ((16 * v3 + v4 : Nat) : Int),
            some ((16 * v5 + v6 : Nat) : Int), some 255] ∧
    hexToRgbaComponents ['#', c1, c2, c3, c4, c5, c6] =
      some [some ((16 * v1 + v2 : Nat) : Int), some ((16 * v3 + v4 : Nat) : Int),
            some ((16 * v5 + v6 : Nat) : Int), some 255] := by
  have hw1 := hexDigit_not_ws h1
  have hw6 := hexDigit_not_ws h6
  obtain ⟨-, -, hh1, -, -⟩ := hexDigit_ne_bad h1
  have e1 := parseIntHex_pair h1 h2
  have e2 := parseIntHex_pair h3 h4
  have e3 := parseIntHex_pair h5 h6
  have htrans6 : jsToLower [c1, c2, c3, c4, c5, c6] ≠ "transparent".toList := by
    intro hEq
    have := congrArg List.length hEq
    simp [jsToLower] at this
  have htrans7 : jsToLower ['#', c1, c2, c3, c4, c5, c6] ≠ "transparent".toList := by
    intro hEq
    have := congrArg List.length hEq
    simp [jsToLower] at this
  have hwh : isWS '#' = false := by decide
  have hT : jsTrim [c1, c2, c3, c4, c5, c6] = [c1, c2, c3, c4, c5, c6] := by
    simp [jsTrim, List.dropWhile_cons, hw1, hw6]
  have hS : stripHash [c1, c2, c3, c4, c5, c6] = [c1, c2, c3, c4, c5, c6] := by
    simp [stripHash, hh1]
  have hT7 : jsTrim ['#', c1, c2, c3, c4, c5, c6] = ['#', c1, c2, c3, c4, c5, c6] := by
    simp [jsTrim, List.dropWhile_cons, hwh, hw6]
  have hS7 : stripHash ['#', c1, c2, c3, c4, c5, c6] = [c1, c2, c3, c4, c5, c6] := by
    simp [stripHash]
  constructor
  · unfold hexToRgbaComponents
    rw [if_neg htrans6, hT, hS]
    simp [e1, e2, e3]
  · unfold hexToRgbaComponents
    rw [if_neg htrans7, hT7, hS7]
    simp [e1, e2, e3]

/-- hexToRgbaComponents is null exactly on strings that are not the literal
transparent and whose trimmed, hash-stripped form has length other than 3
and 6. -/
lemma hexToRgba_other_length {s : List Char}
    (ht : jsToLower s ≠ "transparent".toList)
    (h3 : (stripHash (jsTrim s)).length ≠ 3)
    (h6 : (stripHash (jsTrim s)).length ≠ 6) :
    hexToRgbaComponents s = none := by
  unfold hexToRgbaComponents
  rw [if_neg ht]
  simp [h3, h6]

/-- Counterexample to C2: the color string zzzzzz (length 6, no hex digits)
does not yield a null entry — parseInt of each pair is NaN and the returned
quadruple (NaN, NaN, NaN, 255) is a truthy array, so its four components are
pushed into the flattened palette rather than being omitted. -/
theorem invalid_hex_not_dropped :
    hexToRgbaComponents "zzzzzz".toList ≠ none ∧
    hexToRgbaComponents "zzzzzz".toList = some [none, none, none, some 255] ∧
    selectedPaletteArray [("k1", "zzzzzz")] ["k1"] = [none, none, none, some 255] := by
  refine ⟨by decide, by decide, by decide⟩

/-- C2 as amended: transparent parses to (0,0,0,0); a 3-hex-digit form (with
optional leading hash) parses to the digit-duplicated bytes with alpha 255;
a 6-hex-digit form parses to the byte pairs with alpha 255; a string whose
trimmed, hash-stripped form has length other than 3 and 6 yields no usable
entry and is omitted; but a length-3 or length-6 string with invalid digits
(such as zzzzzz) still yields an entry whose failed components are NaN, and
that entry is included in the flattened palette sent to the worker. -/
theorem hex_palette_parse_spec :
    (hexToRgbaComponents "transparent".toList =
      some [some 0, some 0, some 0, some 0]) ∧
    (∀ (c1 c2 c3 : Char) (v1 v2 v3 : Nat),
      hexDigitVal c1 = some v1 → hexDigitVal c2 = some v2 →
      hexDigitVal c3 = some v3 →
      hexToRgbaComponents [c1, c2, c3] =
        some [some ((17 * v1 : Nat) : Int), some ((17 * v2 : Nat) : Int),
              some ((17 * v3 : Nat) : Int), some 255] ∧
      hexToRgbaComponents ['#', c1, c2, c3] =
        some [some ((17 * v1 : Nat) : Int), some ((17 * v2 : Nat) : Int),
              some ((17 * v3 : Nat) : Int), some 255]) ∧
    (∀ (c1 c2 c3 c4 c5 c6 : Char) (v1 v2 v3 v4 v5 v6 : Nat),
      hexDigitVal c1 = some v1 → hexDigitVal c2 = some v2 →
      hexDigitVal c3 = some v3 → hexDigitVal c4 = some v4 →
      hexDigitVal c5 = some v5 → hexDigitVal c6 = some v6 →
      hexToRgbaComponents [c1, c2, c3, c4, c5, c6] =
        some [some ((16 * v1 + v2 : Nat) : Int), some ((16 * v3 + v4 : Nat) : Int),
              some ((16 * v5 + v6 : Nat) : Int), some 255] ∧
      hexToRgbaComponents ['#', c1, c2, c3, c4, c5, c6] =
        some [some ((16 * v1 + v2 : Nat) : Int), some ((16 * v3 + v4 : Nat) : Int),
              some ((16 * v5 + v6 : Nat) : Int), some 255]) ∧
    (∀ s : List Char, jsToLower s ≠ "transparent".toList →
      (stripHash (jsTrim s)).length ≠ 3 → (stripHash (jsTrim s)).length ≠ 6 →
      hexToRgbaComponents s = none) ∧
    (hexToRgbaComponents "zzzzzz".toList = some [none, none, none, some 255]) ∧
    (selectedPaletteArray [("k1", "zzzzzz")] ["k1"] =
      [none, none, none, some 255]) := by
  refine ⟨by decide, ?_, ?_, ?_, by decide, by decide⟩
  · intro c1 c2 c3 v1 v2 v3 h1 h2 h3
    exact hexToRgba_three h1 h2 h3
  · intro c1 c2 c3 c4 c5 c6 v1 v2 v3 v4 v5 v6 h1 h2 h3 h4 h5 h6
    exact hexToRgba_six h1 h2 h3 h4 h5 h6
  · intro s ht h3 h6
    exact hexToRgba_other_length ht h3 h6

/-- Witness for hex_palette_parse_spec: the spec scenario f00 parses to
(255, 0, 0, 255) and the length-4 string abcd parses to null. -/
theorem hex_palette_parse_spec_witness :
    hexToRgbaComponents ['f', '0', '0'] =
      some [some ((17 * 15 : Nat) : Int), some ((17 * 0 : Nat) : Int),
            some ((17 * 0 : Nat) : Int), some 255] ∧
    hexToRgbaComponents "abcd".toList = none := by
  constructor
  · exact (hex_palette_parse_spec.2.1 'f' '0' '0' 15 0 0
      (by decide) (by decide) (by decide)).1
  · exact hex_palette_parse_spec.2.2.2.1 "abcd".toList
      (by decide) (by decide) (by decide)

/-! ## Theorems: classic color mapper -/

/-- distLt against a finite bound decodes its comparison. -/
lemma distLt_some_iff {d x : Int} : distLt d (some x) = true ↔ d < x := by
  simp [distLt]

/-- Anything is below the infinite initial bound. -/
lemma distLt_none (d : Int) : distLt d none = true := rfl

/-- The inner palette scan returns either its running best untouched (when
nothing in the remaining list beats the running distance) or the position of
the first minimum of the remaining list, which then beats the running
distance; ties within the list keep the lowest index. -/
lemma classicScan_spec (r g b : Nat) :
    ∀ (rest : List Rgba) (i bi : Nat) (bd : Option Int),
    (classicScan r g b rest i bi bd = bi ∧
      ∀ k (hk : k < rest.length),
        distLt (sqDistRGB r g b rest[k]) bd = false) ∨
    (∃ k, ∃ hk : k < rest.length,
      classicScan r g b rest i bi bd = i + k ∧
      distLt (sqDistRGB r g b rest[k]) bd = true ∧
      (∀ k2 (hk2 : k2 < rest.length),
        sqDistRGB r g b rest[k] ≤ sqDistRGB r g b rest[k2]) ∧
      (∀ k2 (hk2 : k2 < rest.length), k2 < k →
        sqDistRGB r g b rest[k] < sqDistRGB r g b rest[k2]))
  | [], i, bi, bd => by
    left
    refine ⟨rfl, ?_⟩
    intro k hk
    exact absurd hk (by simp)
  | e :: rest, i, bi, bd => by
    by_cases hlt : distLt (sqDistRGB r g b e) bd = true
    · have hstep : classicScan r g b (e :: rest) i bi bd =
          classicScan r g b rest (i + 1) i (some (sqDistRGB r g b e)) := by
        simp [classicScan, hlt]
      rcases classicScan_spec r g b rest (i + 1) i (some (sqDistRGB r g b e)) with
        ⟨hres, hall⟩ | ⟨k, hk, hres, hbeats, hmin, hstrict⟩
      · right
        refine ⟨0, by simp, ?_, ?_, ?_, ?_⟩
        · rw [hstep, hres]; omega
        · simpa using hlt
        · intro k2 hk2
          cases k2 with
          | zero => exact le_refl _
          | succ k2 =>
            have hk2b : k2 < rest.length := by simpa using hk2
            have h1 := hall k2 hk2b
            have hnot : ¬ sqDistRGB r g b rest[k2] < sqDistRGB r g b e := by
              intro hcon
              rw [distLt_some_iff.2 hcon] at h1
              exact Bool.noConfusion h1
            simp only [List.getElem_cons_succ, List.getElem_cons_zero]
            omega
        · intro k2 hk2 hk20
          exact absurd hk20 (by omega)
      · right
        have hlt2 : sqDistRGB r g b rest[k] < sqDistRGB r g b e :=
          distLt_some_iff.1 hbeats
        refine ⟨k + 1, by simpa using hk, ?_, ?_, ?_, ?_⟩
        · rw [hstep, hres]; omega
        · simp only [List.getElem_cons_succ]
          cases bd with
          | none => exact rfl
          | some v =>
            have := distLt_some_iff.1 hlt
            exact distLt_some_iff.2 (by omega)
        · intro k2 hk2
          cases k2 with
          | zero =>
            simp only [List.getElem_cons_succ, List.getElem_cons_zero]
            omega
          | succ k2 =>
            simpa using hmin k2 (by simpa using hk2)
        · intro k2 hk2 hk20
          cases k2 with
          | zero =>
            simp only [List.getElem_cons_succ, List.getElem_cons_zero]
            omega
          | succ k2 =>
            simpa using hstrict k2 (by simpa using hk2) (by omega)
    · have hstep : classicScan r g b (e :: rest) i bi bd =
          classicScan r g b rest (i + 1) bi bd := by
        simp [classicScan, hlt]
      rcases classicScan_spec r g b rest (i + 1) bi bd with
        ⟨hres, hall⟩ | ⟨k, hk, hres, hbeats, hmin, hstrict⟩
      · left
        refine ⟨by rw [hstep, hres], ?_⟩
        intro k hk2
        cases k with
        | zero => simpa using (Bool.eq_false_iff.2 hlt)
        | succ k => simpa using hall k (by simpa using hk2)
      · have hbdsome : ∃ v, bd = some v := by
          cases bd with
          | none => exact absurd (distLt_none _) (by simpa using hlt)
          | some v => exact ⟨v, rfl⟩
        obtain ⟨v, rfl⟩ := hbdsome
        have hv1 : sqDistRGB r g b rest[k] < v := distLt_some_iff.1 hbeats
        have hv2 : ¬ sqDistRGB r g b e < v := by
          intro hcon
          rw [distLt_some_iff.2 hcon] at hlt
          exact hlt rfl
        right
        refine ⟨k + 1, by simpa using hk, ?_, ?_, ?_, ?_⟩
        · rw [hstep, hres]; omega
        · simp only [List.getElem_cons_succ]
          exact distLt_some_iff.2 (by omega)
        · intro k2 hk2
          cases k2 with
          | zero =>
            simp only [List.getElem_cons_succ, List.getElem_cons_zero]
            omega
          | succ k2 =>
            simpa using hmin k2 (by simpa using hk2)
        · intro k2 hk2 hk20
          cases k2 with
          | zero =>
            simp only [List.getElem_cons_succ, List.getElem_cons_zero]
            omega
          | succ k2 =>
            simpa using hstrict k2 (by simpa using hk2) (by omega)

/-- classicBestIndex picks an in-range index of globally minimal squared RGB
distance, and strictly beats every earlier index. -/
lemma classicBestIndex_spec (r g b : Nat) (pal : List Rgba) (hne : pal ≠ []) :
    ∃ hj : classicBestIndex r g b pal < pal.length,
      (∀ k (hk : k < pal.length),
        sqDistRGB r g b pal[classicBestIndex r g b pal] ≤ sqDistRGB r g b pal[k]) ∧
      (∀ k (hk : k < pal.length), k < classicBestIndex r g b pal →
        sqDistRGB r g b pal[classicBestIndex r g b pal] < sqDistRGB r g b pal[k]) := by
  rcases classicScan_spec r g b pal 0 0 none with ⟨hres, hall⟩ | ⟨k, hk, hres, -, hmin, hstrict⟩
  · exfalso
    have hlen : 0 < pal.length := List.length_pos.2 hne
    have := hall 0 hlen
    rw [distLt_none] at this
    exact Bool.noConfusion this
  · have hidx : classicBestIndex r g b pal = k := by
      unfold classicBestIndex
      rw [hres]
      omega
    refine ⟨by rw [hidx]; exact hk, ?_, ?_⟩
    · intro k2 hk2
      have := hmin k2 hk2
      simp only [hidx]
      exact this
    · intro k2 hk2 hlt2
      have := hstrict k2 hk2 (by rwa [hidx] at hlt2)
      simp only [hidx]
      exact this

/-- chunk4 of a cons-of-four. -/
lemma chunk4_cons (r g b a : Nat) (rest : List Nat) :
    chunk4 (r :: g :: b :: a :: rest) = ⟨r, g, b, a⟩ :: chunk4 rest := rfl

/-- Number of pixels of a flat buffer. -/
lemma chunk4_length : ∀ d : List Nat, (chunk4 d).length = d.length / 4
  | [] => by simp [chunk4]
  | [x] => by
    have h : chunk4 [x] = [] := rfl
    rw [h]; simp
  | [x, y] => by
    have h : chunk4 [x, y] = [] := rfl
    rw [h]; simp
  | [x, y, z] => by
    have h : chunk4 [x, y, z] = [] := rfl
    rw [h]; simp
  | r :: g :: b :: a :: rest => by
    rw [chunk4_cons]
    simp only [List.length_cons, chunk4_length rest]
    omega

/-- getD through four cons cells. -/
lemma getD_cons4 (r g b a : Nat) (rest : List Nat) (n : Nat) :
    (r :: g :: b :: a :: rest).getD (n + 4) 0 = rest.getD n 0 := by
  have h : n + 4 = (((n + 1) + 1) + 1) + 1 := by omega
  rw [h, List.getD_cons_succ, List.getD_cons_succ, List.getD_cons_succ,
    List.getD_cons_succ]

/-- Pixel i of a flat buffer, when its four bytes are in range. -/
lemma chunk4_getD : ∀ (d : List Nat) (i : Nat), 4 * i + 3 < d.length →
    (chunk4 d).getD i default =
      ⟨d.getD (4 * i) 0, d.getD (4 * i + 1) 0, d.getD (4 * i + 2) 0,
       d.getD (4 * i + 3) 0⟩
  | [], i, hi => by simp at hi
  | [x], i, hi => by
    simp only [List.length_cons, List.length_nil] at hi
    omega
  | [x, y], i, hi => by
    simp only [List.length_cons, List.length_nil] at hi
    omega
  | [x, y, z], i, hi => by
    simp only [List.length_cons, List.length_nil] at hi
    omega
  | r :: g :: b :: a :: rest, 0, _ => by simp [chunk4_cons]
  | r :: g :: b :: a :: rest, i + 1, hi => by
    have hlen : 4 * i + 3 < rest.length := by
      simp only [List.length_cons] at hi
      omega
    have ih := chunk4_getD rest i hlen
    have e3 : 4 * (i + 1) + 3 = (4 * i + 3) + 4 := by omega
    have e2 : 4 * (i + 1) + 2 = (4 * i + 2) + 4 := by omega
    have e1 : 4 * (i + 1) + 1 = (4 * i + 1) + 4 := by omega
    have e0 : 4 * (i + 1) = (4 * i) + 4 := by omega
    rw [chunk4_cons, List.getD_cons_succ, ih, e3, e2, e1, e0,
      getD_cons4, getD_cons4, getD_cons4, getD_cons4]

/-- The effect of classicGo on a well-formed buffer, pixel by pixel. -/
lemma classicGo_chunk (pal : List Rgba) :
    ∀ (d : List Nat), d.length % 4 = 0 →
      chunk4 (classicGo pal d) = (chunk4 d).map (fun px =>
        if px.a = 0 then px
        else pal.getD (classicBestIndex px.r px.g px.b pal) default)
  | [], _ => by simp [classicGo, chunk4]
  | [x], hd => by simp at hd
  | [x, y], hd => by simp at hd
  | [x, y, z], hd => by simp at hd
  | r :: g :: b :: a :: rest, hd => by
    have hrest : rest.length % 4 = 0 := by
      simp only [List.length_cons] at hd
      omega
    have ih := classicGo_chunk pal rest hrest
    by_cases ha : a = 0
    · simp [classicGo, ha, chunk4_cons, ih]
    · simp [classicGo, ha, chunk4_cons, ih]

/-- classicGo preserves the byte count. -/
lemma classicGo_length (pal : List Rgba) :
    ∀ d : List Nat, (classicGo pal d).length = d.length
  | [] => by simp [classicGo]
  | [x] => by simp [classicGo]
  | [x, y] => by simp [classicGo]
  | [x, y, z] => by simp [classicGo]
  | r :: g :: b :: a :: rest => by
    by_cases ha : a = 0 <;>
      simp [classicGo, ha, classicGo_length pal rest]

/-- getD of a mapped pixel list at an in-range index. -/
lemma getD_map_rgba (f : Rgba → Rgba) (l : List Rgba) (i : Nat) (hi : i < l.length) :
    (l.map f).getD i default = f (l.getD i default) := by
  rw [List.getD_eq_getElem?_getD, List.getD_eq_getElem?_getD, List.getElem?_map,
    List.getElem?_eq_getElem hi]
  rfl

/-- getD at an in-range index as getElem. -/
lemma getD_eq_getElem_rgba (l : List Rgba) (k : Nat) (hk : k < l.length) :
    l.getD k default = l[k] := by
  rw [List.getD_eq_getElem?_getD, List.getElem?_eq_getElem hk]
  rfl

/-- C3: on a well-formed tile-grid buffer and a palette with at least one
full RGBA entry, every pixel with non-zero alpha is replaced by a palette
entry of globally minimal squared RGB distance (alpha excluded), and every
palette entry of lower index has strictly larger distance — the
lowest-indexed entry wins ties. -/
theorem classic_mapper_nearest (palette d : List Nat) (hpal : 4 ≤ palette.length)
    (hd : d.length % 4 = 0) (i : Nat) (hi : 4 * i + 3 < d.length)
    (ha : d.getD (4 * i + 3) 0 ≠ 0) :
    ∃ j : Nat, j < (chunk4 palette).length ∧
      (chunk4 (mapImageDataToPaletteClassic palette d)).getD i default =
        (chunk4 palette).getD j default ∧
      (∀ k, k < (chunk4 palette).length →
        sqDistRGB (d.getD (4 * i) 0) (d.getD (4 * i + 1) 0) (d.getD (4 * i + 2) 0)
            ((chunk4 palette).getD j default) ≤
          sqDistRGB (d.getD (4 * i) 0) (d.getD (4 * i + 1) 0) (d.getD (4 * i + 2) 0)
            ((chunk4 palette).getD k default)) ∧
      (∀ k, k < j →
        sqDistRGB (d.getD (4 * i) 0) (d.getD (4 * i + 1) 0) (d.getD (4 * i + 2) 0)
            ((chunk4 palette).getD j default) <
          sqDistRGB (d.getD (4 * i) 0) (d.getD (4 * i + 1) 0) (d.getD (4 * i + 2) 0)
            ((chunk4 palette).getD k default)) := by
  have hlen : 1 ≤ (chunk4 palette).length := by
    rw [chunk4_length]
    omega
  have hne : chunk4 palette ≠ [] := by
    intro hcon
    rw [hcon] at hlen
    simp at hlen
  obtain ⟨hj, hmin, hstrict⟩ := classicBestIndex_spec (d.getD (4 * i) 0)
    (d.getD (4 * i + 1) 0) (d.getD (4 * i + 2) 0) (chunk4 palette) hne
  refine ⟨classicBestIndex (d.getD (4 * i) 0) (d.getD (4 * i + 1) 0)
      (d.getD (4 * i + 2) 0) (chunk4 palette), hj, ?_, ?_, ?_⟩
  · unfold mapImageDataToPaletteClassic
    rw [if_neg (by omega)]
    rw [classicGo_chunk (chunk4 palette) d hd]
    have hic : i < (chunk4 d).length := by
      rw [chunk4_length]
      omega
    rw [getD_map_rgba _ _ _ hic, chunk4_getD d i hi]
    simp only [List.getD_eq_getElem?_getD] at ha
    simp [ha]
  · intro k hk
    rw [getD_eq_getElem_rgba _ _ hj, getD_eq_getElem_rgba _ k hk]
    exact hmin k hk
  · intro k hk
    have hk2 : k < (chunk4 palette).length := lt_trans hk hj
    rw [getD_eq_getElem_rgba _ _ hj, getD_eq_getElem_rgba _ k hk2]
    exact hstrict k hk2 hk

/-- Witness for classic_mapper_nearest: buffer of one opaque grey pixel,
palette with black then white; the chosen entry exists, is in range and is
distance-minimal. -/
theorem classic_mapper_nearest_witness :
    ∃ j : Nat, j < (chunk4 [0, 0, 0, 255, 255, 255, 255, 255]).length ∧
      (chunk4 (mapImageDataToPaletteClassic [0, 0, 0, 255, 255, 255, 255, 255]
          [10, 10, 10, 255])).getD 0 default =
        (chunk4 [0, 0, 0, 255, 255, 255, 255, 255]).getD j default ∧
      (∀ k, k < (chunk4 [0, 0, 0, 255, 255, 255, 255, 255]).length →
        sqDistRGB (([10, 10, 10, 255] : List Nat).getD (4 * 0) 0)
            (([10, 10, 10, 255] : List Nat).getD (4 * 0 + 1) 0)
            (([10, 10, 10, 255] : List Nat).getD (4 * 0 + 2) 0)
            ((chunk4 [0, 0, 0, 255, 255, 255, 255, 255]).getD j default) ≤
          sqDistRGB (([10, 10, 10, 255] : List Nat).getD (4 * 0) 0)
            (([10, 10, 10, 255] : List Nat).getD (4 * 0 + 1) 0)
            (([10, 10, 10, 255] : List Nat).getD (4 * 0 + 2) 0)
            ((chunk4 [0, 0, 0, 255, 255, 255, 255, 255]).getD k default)) ∧
      (∀ k, k < j →
        sqDistRGB (([10, 10, 10, 255] : List Nat).getD (4 * 0) 0)
            (([10, 10, 10, 255] : List Nat).getD (4 * 0 + 1) 0)
            (([10, 10, 10, 255] : List Nat).getD (4 * 0 + 2) 0)
            ((chunk4 [0, 0, 0, 255, 255, 255, 255, 255]).getD j default) <
          sqDistRGB (([10, 10, 10, 255] : List Nat).getD (4 * 0) 0)
            (([10, 10, 10, 255] : List Nat).getD (4 * 0 + 1) 0)
            (([10, 10, 10, 255] : List Nat).getD (4 * 0 + 2) 0)
            ((chunk4 [0, 0, 0, 255, 255, 255, 255, 255]).getD k default)) :=
  classic_mapper_nearest [0, 0, 0, 255, 255, 255, 255, 255] [10, 10, 10, 255]
    (by decide) (by decide) 0 (by decide) (by decide)

/-! ## Theorems: transparency pass-through of both mappers -/

/-- Every pixel of the perceptual mapper writes exactly four bytes. -/
lemma perceptualPixel_length (width height : Nat) (palette d : List Nat) (idx : Nat) :
    (perceptualPixel width height palette d idx).length = 4 := by
  simp only [perceptualPixel]
  by_cases h : d.getD (4 * idx + 3) 0 = 0
  · rw [if_pos h]
    simp
  · rw [if_neg h]
    simp

/-- Byte count of the rebuilt prefix. -/
lemma buildPixels_length (f : Nat → List Nat) (hf : ∀ k, (f k).length = 4) :
    ∀ n, (buildPixels f n).length = 4 * n
  | 0 => rfl
  | n + 1 => by
    simp only [buildPixels, List.length_append, buildPixels_length f hf n, hf n]
    omega

/-- Pixel i of the rebuilt buffer is the chunk written for pixel i. -/
lemma chunk4_buildPixels_getD (f : Nat → List Nat) (hf : ∀ k, (f k).length = 4) :
    ∀ (n : Nat) (tail : List Nat) (i : Nat), i < n →
      (chunk4 (buildPixels f n ++ tail)).getD i default =
        ⟨(f i).getD 0 0, (f i).getD 1 0, (f i).getD 2 0, (f i).getD 3 0⟩
  | 0, tail, i, hi => by omega
  | n + 1, tail, i, hi => by
    by_cases hin : i < n
    · have ih := chunk4_buildPixels_getD f hf n (f n ++ tail) i hin
      rw [buildPixels, List.append_assoc]
      exact ih
    · have hieq : i = n := by omega
      subst hieq
      rw [buildPixels, List.append_assoc]
      have hblen : (buildPixels f i).length = 4 * i := buildPixels_length f hf i
      have hfl := hf i
      have hlt : 4 * i + 3 < (buildPixels f i ++ (f i ++ tail)).length := by
        simp only [List.length_append, hblen, hfl]
        omega
      have hcomp : ∀ c, c < 4 →
          (buildPixels f i ++ (f i ++ tail)).getD (4 * i + c) 0 = (f i).getD c 0 := by
        intro c hc
        rw [List.getD_append_right (buildPixels f i) (f i ++ tail) 0 (4 * i + c)
          (by omega)]
        rw [hblen]
        have hsub : 4 * i + c - 4 * i = c := by omega
        rw [hsub]
        rw [List.getD_append (f i) tail 0 c (by omega)]
      have hcomp0 : (buildPixels f i ++ (f i ++ tail)).getD (4 * i) 0 = (f i).getD 0 0 := by
        have := hcomp 0 (by omega)
        simpa using this
      rw [chunk4_getD _ i hlt, hcomp0, hcomp 1 (by omega), hcomp 2 (by omega),
        hcomp 3 (by omega)]

/-- C4: for every buffer and palette and both mapper variants, a pixel whose
alpha is 0 keeps all four channels after color mapping. -/
theorem transparent_pixels_unchanged (palette d : List Nat) (width height : Nat)
    (hd : d.length = 4 * (width * height)) (i : Nat) (hi : 4 * i + 3 < d.length)
    (ha : d.getD (4 * i + 3) 0 = 0) :
    (chunk4 (mapImageDataToPaletteClassic palette d)).getD i default =
      (chunk4 d).getD i default ∧
    (chunk4 (mapImageDataToPalette width height palette d)).getD i default =
      (chunk4 d).getD i default := by
  have hd4 : d.length % 4 = 0 := by omega
  have hic : i < (chunk4 d).length := by
    rw [chunk4_length]
    omega
  constructor
  · unfold mapImageDataToPaletteClassic
    by_cases hpal : palette.length < 4
    · rw [if_pos hpal]
    · rw [if_neg hpal, classicGo_chunk _ d hd4, getD_map_rgba _ _ _ hic,
        chunk4_getD d i hi]
      have ha2 := ha
      simp only [List.getD_eq_getElem?_getD] at ha2
      simp [ha2]
  · unfold mapImageDataToPalette
    by_cases hpal : palette.length < 4
    · rw [if_pos hpal]
    · rw [if_neg hpal]
      have hiwh : i < width * height := by omega
      rw [chunk4_buildPixels_getD (perceptualPixel width height palette d)
        (fun k => perceptualPixel_length width height palette d k)
        (width * height) (d.drop (4 * (width * height))) i hiwh]
      have hpx : perceptualPixel width height palette d i =
          [d.getD (4 * i) 0, d.getD (4 * i + 1) 0, d.getD (4 * i + 2) 0,
           d.getD (4 * i + 3) 0] := by
        simp only [perceptualPixel]
        rw [if_pos ha]
      rw [hpx, chunk4_getD d i hi]
      rfl

/-- Witness for transparent_pixels_unchanged: a single transparent pixel
with non-zero RGB is unchanged by both mappers. -/
theorem transparent_pixels_unchanged_witness :
    (chunk4 (mapImageDataToPaletteClassic [0, 0, 0, 255] [7, 8, 9, 0])).getD 0 default =
      (chunk4 [7, 8, 9, 0]).getD 0 default ∧
    (chunk4 (mapImageDataToPalette 1 1 [0, 0, 0, 255] [7, 8, 9, 0])).getD 0 default =
      (chunk4 [7, 8, 9, 0]).getD 0 default :=
  transparent_pixels_unchanged [0, 0, 0, 255] [7, 8, 9, 0] 1 1
    (by decide) 0 (by decide) (by decide)

/-! ## Theorems: CIEDE2000 -/

/-- Math.sign flips under negation. -/
lemma jsSign_neg (x : ℝ) : jsSign (-x) = -jsSign x := by
  unfold jsSign
  rcases lt_trichotomy x 0 with h | h | h
  · rw [if_pos h, if_neg (by linarith : ¬(-x) < 0), if_pos (by linarith : (0:ℝ) < -x)]
    norm_num
  · rw [h]
    norm_num
  · rw [if_pos (by linarith : (-x) < 0), if_neg (by linarith : ¬x < 0), if_pos h]

/-- The hue-prime wraparound is odd. -/
lemma dhpAdjust_neg (d : ℝ) : dhpAdjust (-d) = -dhpAdjust d := by
  unfold dhpAdjust
  rw [abs_neg, jsSign_neg]
  by_cases h : |d| > Real.pi
  · rw [if_pos h, if_pos h]
    ring
  · rw [if_neg h, if_neg h]

/-- The hue-prime wraparound fixes zero. -/
lemma dhpAdjust_zero : dhpAdjust 0 = 0 := by
  unfold dhpAdjust
  rw [abs_zero, if_neg (by linarith [Real.pi_pos])]

/-- The hue-prime average is symmetric in its two angles. -/
lemma avgHpOf_comm (h1 h2 : ℝ) : avgHpOf h2 h1 = avgHpOf h1 h2 := by
  unfold avgHpOf
  rw [abs_sub_comm]
  by_cases h : |h1 - h2| > Real.pi
  · rw [if_pos h]
    rw [if_pos h]
    ring
  · rw [if_neg h]
    rw [if_neg h]
    ring

/-- deltaE00 of a color with itself vanishes. -/
lemma deltaE00_self (L a b : ℝ) : deltaE00 L a b L a b = 0 := by
  simp [deltaE00, dhpAdjust_zero]

/-- deltaE00 is symmetric under swapping its two colors. -/
lemma deltaE00_symm (L1 a1 b1 L2 a2 b2 : ℝ) :
    deltaE00 L2 a2 b2 L1 a1 b1 = deltaE00 L1 a1 b1 L2 a2 b2 := by
  simp only [deltaE00]
  set C1 := hypotR a1 b1 with hC1
  set C2 := hypotR a2 b2 with hC2
  rw [show C2 + C1 = C1 + C2 from add_comm _ _]
  set G := gFactor ((C1 + C2) / 2) with hG
  set C1p := hypotR ((1 + G) * a1) b1 with hC1p
  set C2p := hypotR ((1 + G) * a2) b2 with hC2p
  set h1p := hPrime b1 ((1 + G) * a1) with hh1p
  set h2p := hPrime b2 ((1 + G) * a2) with hh2p
  rw [show C2p + C1p = C1p + C2p from add_comm _ _]
  rw [show h1p - h2p = -(h2p - h1p) from by ring, dhpAdjust_neg]
  rw [show C2p * C1p = C1p * C2p from mul_comm _ _]
  rw [avgHpOf_comm h1p h2p]
  rw [show L2 + L1 = L1 + L2 from add_comm _ _]
  rw [show -dhpAdjust (h2p - h1p) / 2 = -(dhpAdjust (h2p - h1p) / 2) from by ring,
    Real.sin_neg]
  congr 1
  ring

/-- C7: deltaE00 vanishes on equal colors and is symmetric under swapping its
arguments. -/
theorem deltaE00_reflexive_symm :
    (∀ L a b : ℝ, deltaE00 L a b L a b = 0) ∧
    (∀ L1 a1 b1 L2 a2 b2 : ℝ,
      deltaE00 L1 a1 b1 L2 a2 b2 = deltaE00 L2 a2 b2 L1 a1 b1) :=
  ⟨fun L a b => deltaE00_self L a b,
   fun L1 a1 b1 L2 a2 b2 => (deltaE00_symm L1 a1 b1 L2 a2 b2).symm⟩

/-! ## Theorems: perceptual refinement pass -/

/-- The infinite initial bound loses to anything. -/
lemma oLtR_none (x : ℝ) : oLtR x none := trivial

/-- The finite-bound comparison is the strict order. -/
lemma oLtR_some_iff {x y : ℝ} : oLtR x (some y) ↔ x < y := Iff.rfl

/-- Unfolding equation for slotCost. -/
lemma slotCost_def (Lr ar br Cr hW : ℝ) (pal : List PaletteLab)
    (slot : Int × Option ℝ) :
    slotCost Lr ar br Cr hW pal slot =
      refineCost Lr ar br Cr hW (pal.getD slot.1.toNat default) (slot.2.getD 0) := rfl

/-- The refinement fold either keeps its accumulator (when no valid slot
beats the running cost) or returns the index and cost of a valid slot of
minimal adjusted cost, which beats the running cost. -/
lemma refineFold_go (Lr ar br Cr hW : ℝ) (pal : List PaletteLab) :
    ∀ (slots : List (Int × Option ℝ)) (b0 : Nat) (c0 : Option ℝ),
      (List.foldl (refineStep Lr ar br Cr hW pal) (b0, c0) slots = (b0, c0) ∧
        ∀ slot ∈ slots, 0 ≤ slot.1 →
          ¬ oLtR (slotCost Lr ar br Cr hW pal slot) c0) ∨
      (∃ slot ∈ slots, 0 ≤ slot.1 ∧
        (List.foldl (refineStep Lr ar br Cr hW pal) (b0, c0) slots).1 = slot.1.toNat ∧
        (List.foldl (refineStep Lr ar br Cr hW pal) (b0, c0) slots).2 =
          some (slotCost Lr ar br Cr hW pal slot) ∧
        oLtR (slotCost Lr ar br Cr hW pal slot) c0 ∧
        ∀ slot2 ∈ slots, 0 ≤ slot2.1 →
          slotCost Lr ar br Cr hW pal slot ≤ slotCost Lr ar br Cr hW pal slot2)
  | [], b0, c0 => by
    left
    exact ⟨rfl, by simp⟩
  | s :: rest, b0, c0 => by
    by_cases hneg : s.1 < 0
    · have hstep : refineStep Lr ar br Cr hW pal (b0, c0) s = (b0, c0) := by
        simp only [refineStep]
        rw [if_pos hneg]
      rcases refineFold_go Lr ar br Cr hW pal rest b0 c0 with
        ⟨hres, hall⟩ | ⟨sl, hmem, hv, h1, h2, hbeat, hmin⟩
      · left
        refine ⟨?_, ?_⟩
        · simp only [List.foldl_cons, hstep]
          exact hres
        · intro slot hmem hv
          rcases List.mem_cons.1 hmem with rfl | hmem2
          · omega
          · exact hall slot hmem2 hv
      · right
        refine ⟨sl, List.mem_cons_of_mem _ hmem, hv, ?_, ?_, hbeat, ?_⟩
        · simp only [List.foldl_cons, hstep]
          exact h1
        · simp only [List.foldl_cons, hstep]
          exact h2
        · intro slot2 hmem2 hv2
          rcases List.mem_cons.1 hmem2 with rfl | hmem3
          · omega
          · exact hmin slot2 hmem3 hv2
    · by_cases hbt : oLtR (slotCost Lr ar br Cr hW pal s) c0
      · have hbt2 := hbt
        rw [slotCost_def] at hbt2
        have hstep : refineStep Lr ar br Cr hW pal (b0, c0) s =
            (s.1.toNat, some (slotCost Lr ar br Cr hW pal s)) := by
          simp only [refineStep, slotCost_def]
          rw [if_neg hneg, if_pos hbt2]
        rcases refineFold_go Lr ar br Cr hW pal rest s.1.toNat
            (some (slotCost Lr ar br Cr hW pal s)) with
          ⟨hres, hall⟩ | ⟨sl, hmem, hv, h1, h2, hbeat, hmin⟩
        · right
          refine ⟨s, List.mem_cons_self _ _, by omega, ?_, ?_, hbt, ?_⟩
          · simp only [List.foldl_cons, hstep, hres]
          · simp only [List.foldl_cons, hstep, hres]
          · intro slot2 hmem2 hv2
            rcases List.mem_cons.1 hmem2 with rfl | hmem3
            · exact le_refl _
            · have := hall slot2 hmem3 hv2
              rw [oLtR_some_iff] at this
              linarith [not_lt.1 this]
        · right
          have hbeat2 : slotCost Lr ar br Cr hW pal sl < slotCost Lr ar br Cr hW pal s :=
            oLtR_some_iff.1 hbeat
          refine ⟨sl, List.mem_cons_of_mem _ hmem, hv, ?_, ?_, ?_, ?_⟩
          · simp only [List.foldl_cons, hstep]
            exact h1
          · simp only [List.foldl_cons, hstep]
            exact h2
          · cases c0 with
            | none => exact trivial
            | some v =>
              rw [oLtR_some_iff] at hbt ⊢
              linarith
          · intro slot2 hmem2 hv2
            rcases List.mem_cons.1 hmem2 with rfl | hmem3
            · linarith
            · exact hmin slot2 hmem3 hv2
      · have hbt2 := hbt
        rw [slotCost_def] at hbt2
        have hstep : refineStep Lr ar br Cr hW pal (b0, c0) s = (b0, c0) := by
          simp only [refineStep]
          rw [if_neg hneg, if_neg hbt2]
        rcases refineFold_go Lr ar br Cr hW pal rest b0 c0 with
          ⟨hres, hall⟩ | ⟨sl, hmem, hv, h1, h2, hbeat, hmin⟩
        · left
          refine ⟨?_, ?_⟩
          · simp only [List.foldl_cons, hstep]
            exact hres
          · intro slot hmem hv
            rcases List.mem_cons.1 hmem with rfl | hmem2
            · exact hbt
            · exact hall slot hmem2 hv
        · right
          have hc0some : ∃ v, c0 = some v := by
            cases c0 with
            | none => exact absurd (oLtR_none _) hbt
            | some v => exact ⟨v, rfl⟩
          obtain ⟨v, rfl⟩ := hc0some
          have hv1 : slotCost Lr ar br Cr hW pal sl < v := oLtR_some_iff.1 hbeat
          have hv2 : v ≤ slotCost Lr ar br Cr hW pal s := by
            rw [oLtR_some_iff] at hbt
            linarith [not_lt.1 hbt]
          refine ⟨sl, List.mem_cons_of_mem _ hmem, hv, ?_, ?_, hbeat, ?_⟩
          · simp only [List.foldl_cons, hstep]
            exact h1
          · simp only [List.foldl_cons, hstep]
            exact h2
          · intro slot2 hmem2 hv2b
            rcases List.mem_cons.1 hmem2 with rfl | hmem3
            · linarith
            · exact hmin slot2 hmem3 hv2b

/-- Inserting into the shortlist never removes the last valid slot: the
replacement slot is itself valid. -/
lemma insertTopK_exists_valid (slots : List (Int × Option ℝ)) (pi : Nat) (base : ℝ)
    (h : ∃ slot ∈ slots, 0 ≤ slot.1) :
    ∃ slot ∈ insertTopK slots pi base, 0 ≤ slot.1 := by
  unfold insertTopK
  by_cases hc : oLtR base (worstOfSlots slots).2
  · rw [if_pos hc]
    by_cases hk : (worstOfSlots slots).1 < slots.length
    · rw [List.set_eq_take_cons_drop _ hk]
      exact ⟨((pi : Int), some base),
        List.mem_append_right _ (List.mem_cons_self _ _), Int.natCast_nonneg pi⟩
    · rw [List.set_eq_of_length_le (by omega)]
      exact h
  · rw [if_neg hc]
    exact h

/-- The worst slot of the untouched initial shortlist is slot 0, score
infinity. -/
lemma worstOfSlots_replicate :
    worstOfSlots (List.replicate K_SHORTLIST ((-1 : Int), (none : Option ℝ))) =
      (0, none) := by
  unfold worstOfSlots K_SHORTLIST
  rw [show List.replicate 8 ((-1 : Int), (none : Option ℝ)) =
    [(-1, none), (-1, none), (-1, none), (-1, none),
     (-1, none), (-1, none), (-1, none), (-1, none)] from rfl]
  rw [show List.range ([((-1 : Int), (none : Option ℝ)), (-1, none), (-1, none),
      (-1, none), (-1, none), (-1, none), (-1, none), (-1, none)]).length =
    [0, 1, 2, 3, 4, 5, 6, 7] from by decide]
  simp [oGt]

/-- The first insertion into the fresh shortlist always lands, leaving a
valid slot. -/
lemma insertTopK_init_valid (pi : Nat) (base : ℝ) :
    ∃ slot ∈ insertTopK (List.replicate K_SHORTLIST ((-1 : Int), (none : Option ℝ)))
      pi base, 0 ≤ slot.1 := by
  unfold insertTopK
  rw [worstOfSlots_replicate]
  rw [if_pos (oLtR_none base)]
  have hset : List.set (List.replicate K_SHORTLIST ((-1 : Int), (none : Option ℝ)))
      0 ((pi : Int), some base) =
      ((pi : Int), some base) :: List.replicate 7 ((-1 : Int), (none : Option ℝ)) := rfl
  rw [hset]
  exact ⟨((pi : Int), some base), List.mem_cons_self _ _, Int.natCast_nonneg pi⟩

/-- Folding further insertions preserves the existence of a valid slot. -/
lemma foldl_insert_preserves (f : Nat × PaletteLab → ℝ) :
    ∀ (l : List (Nat × PaletteLab)) (slots : List (Int × Option ℝ)),
      (∃ slot ∈ slots, 0 ≤ slot.1) →
      ∃ slot ∈ List.foldl (fun s pe => insertTopK s pe.1 (f pe)) slots l, 0 ≤ slot.1
  | [], slots, h => h
  | pe :: rest, slots, h =>
    foldl_insert_preserves f rest _ (insertTopK_exists_valid _ _ _ h)

/-- A non-empty palette always leaves at least one valid shortlist slot. -/
lemma shortlist_exists_valid (Lr ar br : ℝ) (pal : List PaletteLab) (hne : pal ≠ []) :
    ∃ slot ∈ shortlistSlots Lr ar br pal, 0 ≤ slot.1 := by
  unfold shortlistSlots
  obtain ⟨e, rest, rfl⟩ := List.exists_cons_of_ne_nil hne
  rw [show (e :: rest).enum = (0, e) :: List.enumFrom 1 rest from rfl]
  rw [List.foldl_cons]
  exact foldl_insert_preserves _ (List.enumFrom 1 rest) _ (insertTopK_init_valid _ _)

/-- C6: the adjusted cost of a shortlisted candidate is the raw distance
plus 0.7 * max(0, dL - 3) plus 0.7 * max(0, dC - 3) plus the gated hue
penalty 0.3 * hueWeight * (1 - cos dHue) (pixel chroma at least 3) plus the
gated neutral bias 0.15 * candidateChroma (pixel chroma below 6); and for an
opaque pixel the candidate written back (full RGBA) is a shortlisted
candidate of minimal adjusted cost. -/
theorem refine_cost_spec (width height : Nat) (palette d : List Nat) (idx : Nat)
    (hpal : 4 ≤ palette.length) (ha : d.getD (4 * idx + 3) 0 ≠ 0) :
    (∀ (L A B C hw base : ℝ) (p : PaletteLab),
      refineCost L A B C hw p base =
        base + 0.7 * max 0 (|L - p.L| - 3.0) + 0.7 * max 0 (|C - p.C| - 3.0) +
        (if (3.0 : ℝ) ≤ C then 0.3 * hw * (1 - Real.cos (deltaHue A B p.a p.b))
          else 0) +
        (if C < (6.0 : ℝ) then 0.15 * p.C else 0)) ∧
    (∃ slot ∈ pixelShortlist palette d idx, 0 ≤ slot.1 ∧
      pixelBest width height palette d idx = slot.1.toNat ∧
      ∀ slot2 ∈ pixelShortlist palette d idx, 0 ≤ slot2.1 →
        slotCost (LarrOf d idx) (AarrOf d idx) (BarrOf d idx) (pixelChroma d idx)
            (hueWeightAt width height d (idx % width) (idx / width))
            (paletteLabOf palette) slot ≤
          slotCost (LarrOf d idx) (AarrOf d idx) (BarrOf d idx) (pixelChroma d idx)
            (hueWeightAt width height d (idx % width) (idx / width))
            (paletteLabOf palette) slot2) ∧
    perceptualPixel width height palette d idx =
      [((paletteLabOf palette).getD (pixelBest width height palette d idx) default).r,
       ((paletteLabOf palette).getD (pixelBest width height palette d idx) default).g,
       ((paletteLabOf palette).getD (pixelBest width height palette d idx) default).b8,
       ((paletteLabOf palette).getD (pixelBest width height palette d idx) default).a8] := by
  refine ⟨?_, ?_, ?_⟩
  · intro L A B C hw base p
    simp only [refineCost, LAMBDA_L, TAU_L_LAB, LAMBDA_C, TAU_C_LAB, LAMBDA_H,
      C_NEUTRAL_GATE, C_NEUTRAL_BIAS, KAPPA_NEUTRAL]
  · have hpne : paletteLabOf palette ≠ [] := by
      unfold paletteLabOf
      intro hcon
      have hl := congrArg List.length hcon
      rw [List.length_map, chunk4_length] at hl
      simp only [List.length_nil] at hl
      omega
    obtain ⟨s0, hmem0, hv0⟩ := shortlist_exists_valid (LarrOf d idx) (AarrOf d idx)
      (BarrOf d idx) (paletteLabOf palette) hpne
    have hps : pixelShortlist palette d idx =
        shortlistSlots (LarrOf d idx) (AarrOf d idx) (BarrOf d idx)
          (paletteLabOf palette) := rfl
    rcases refineFold_go (LarrOf d idx) (AarrOf d idx) (BarrOf d idx)
        (pixelChroma d idx) (hueWeightAt width height d (idx % width) (idx / width))
        (paletteLabOf palette) (pixelShortlist palette d idx)
        (if 0 ≤ ((pixelShortlist palette d idx).getD 0 ((-1 : Int), none)).1
          then ((pixelShortlist palette d idx).getD 0 ((-1 : Int), none)).1.toNat
          else 0)
        none with
      ⟨hres, hall⟩ | ⟨sl, hmem, hv, h1, h2, hbeat, hmin⟩
    · exfalso
      rw [hps] at hall
      exact hall s0 hmem0 hv0 (oLtR_none _)
    · refine ⟨sl, hmem, hv, ?_, fun slot2 hm hv2 => hmin slot2 hm hv2⟩
      show pixelBest width height palette d idx = sl.1.toNat
      unfold pixelBest refineBest refineFold
      exact h1
  · simp only [perceptualPixel]
    rw [if_neg ha]

/-- Witness for refine_cost_spec: a single opaque red pixel against the
one-entry black palette. -/
theorem refine_cost_spec_witness :
    (∀ (L A B C hw base : ℝ) (p : PaletteLab),
      refineCost L A B C hw p base =
        base + 0.7 * max 0 (|L - p.L| - 3.0) + 0.7 * max 0 (|C - p.C| - 3.0) +
        (if (3.0 : ℝ) ≤ C then 0.3 * hw * (1 - Real.cos (deltaHue A B p.a p.b))
          else 0) +
        (if C < (6.0 : ℝ) then 0.15 * p.C else 0)) ∧
    (∃ slot ∈ pixelShortlist [0, 0, 0, 255] [255, 0, 0, 255] 0, 0 ≤ slot.1 ∧
      pixelBest 1 1 [0, 0, 0, 255] [255, 0, 0, 255] 0 = slot.1.toNat ∧
      ∀ slot2 ∈ pixelShortlist [0, 0, 0, 255] [255, 0, 0, 255] 0, 0 ≤ slot2.1 →
        slotCost (LarrOf [255, 0, 0, 255] 0) (AarrOf [255, 0, 0, 255] 0)
            (BarrOf [255, 0, 0, 255] 0) (pixelChroma [255, 0, 0, 255] 0)
            (hueWeightAt 1 1 [255, 0, 0, 255] (0 % 1) (0 / 1))
            (paletteLabOf [0, 0, 0, 255]) slot ≤
          slotCost (LarrOf [255, 0, 0, 255] 0) (AarrOf [255, 0, 0, 255] 0)
            (BarrOf [255, 0, 0, 255] 0) (pixelChroma [255, 0, 0, 255] 0)
            (hueWeightAt 1 1 [255, 0, 0, 255] (0 % 1) (0 / 1))
            (paletteLabOf [0, 0, 0, 255]) slot2) ∧
    perceptualPixel 1 1 [0, 0, 0, 255] [255, 0, 0, 255] 0 =
      [((paletteLabOf [0, 0, 0, 255]).getD
          (pixelBest 1 1 [0, 0, 0, 255] [255, 0, 0, 255] 0) default).r,
       ((paletteLabOf [0, 0, 0, 255]).getD
          (pixelBest 1 1 [0, 0, 0, 255] [255, 0, 0, 255] 0) default).g,
       ((paletteLabOf [0, 0, 0, 255]).getD
          (pixelBest 1 1 [0, 0, 0, 255] [255, 0, 0, 255] 0) default).b8,
       ((paletteLabOf [0, 0, 0, 255]).getD
          (pixelBest 1 1 [0, 0, 0, 255] [255, 0, 0, 255] 0) default).a8] :=
  refine_cost_spec 1 1 [0, 0, 0, 255] [255, 0, 0, 255] 0 (by decide) (by decide)

/-! ## Theorems: hue-stability weight and transparent neighbours -/

/-- filterMap functions that are defined at the same places produce lists of
the same length. -/
lemma filterMap_length_congr {α β γ : Type} (f : α → Option β) (g : α → Option γ)
    (h : ∀ a, (f a).isSome = (g a).isSome) :
    ∀ l : List α, (l.filterMap f).length = (l.filterMap g).length
  | [] => rfl
  | a :: l => by
    have hrest := filterMap_length_congr f g h l
    have ha := h a
    cases hf : f a with
    | none =>
      rw [hf] at ha
      cases hg : g a with
      | none => simp [List.filterMap_cons, hf, hg, hrest]
      | some v =>
        rw [hg] at ha
        simp at ha
    | some v =>
      rw [hf] at ha
      cases hg : g a with
      | none =>
        rw [hg] at ha
        simp at ha
      | some w => simp [List.filterMap_cons, hf, hg, hrest]

/-- The Lab precompute of a fully transparent pixel stores (0, 0, 0). -/
lemma transparent_lab_zero (d : List Nat) (idx : Nat)
    (ha : d.getD (4 * idx + 3) 0 = 0) :
    LarrOf d idx = 0 ∧ AarrOf d idx = 0 ∧ BarrOf d idx = 0 := by
  unfold LarrOf AarrOf BarrOf
  rw [if_pos ha, if_pos ha, if_pos ha]
  exact ⟨rfl, rfl, rfl⟩

/-- flatMap functions with pointwise equal lengths produce lists of the same
length. -/
lemma flatMap_length_congr {α β γ : Type} (f : α → List β) (g : α → List γ)
    (h : ∀ a, (f a).length = (g a).length) :
    ∀ l : List α, (l.flatMap f).length = (l.flatMap g).length
  | [] => rfl
  | a :: l => by
    simp only [List.flatMap_cons, List.length_append, h a,
      flatMap_length_congr f g h l]

/-- The sample count of the 3 by 3 window depends only on the geometry: the
window test looks at bounds, never at the buffer contents (in particular not
at any alpha). -/
lemma hueSamples_length_indep (width height : Nat) (d d2 : List Nat) (x y : Nat) :
    (hueSamples width height d x y).length =
      (hueSamples width height d2 x y).length := by
  unfold hueSamples
  apply flatMap_length_congr
  intro dy
  by_cases hc : ((y : Int) + dy) < 0 ∨ (height : Int) ≤ ((y : Int) + dy)
  · simp only [if_pos hc]
  · simp only [if_neg hc]
    apply filterMap_length_congr
    intro dx
    by_cases hb : ((x : Int) + dx) < 0 ∨ (width : Int) ≤ ((x : Int) + dx) <;>
      simp [hb]

/-- The window of pixel (0,0) of a 2 by 1 image holds exactly the samples of
pixels 0 and 1, whatever the buffer holds. -/
lemma hueSamples_two_one (d : List Nat) :
    hueSamples 2 1 d 0 0 = [(AarrOf d 0, BarrOf d 0), (AarrOf d 1, BarrOf d 1)] := by
  unfold hueSamples
  norm_num
  simp only [List.filterMap_cons, List.filterMap_nil]
  norm_num

/-- Gamma linearisation of a full channel. -/
lemma srgbToLinear_255 : srgbToLinearComponent 255 = 1 := by
  unfold srgbToLinearComponent
  rw [if_neg (by norm_num)]
  have h : ((255 : ℝ) / 255 + 0.055) / 1.055 = 1 := by norm_num
  rw [h, Real.one_rpow]

/-- Gamma linearisation of a zero channel. -/
lemma srgbToLinear_0 : srgbToLinearComponent 0 = 0 := by
  unfold srgbToLinearComponent
  rw [if_pos (by norm_num)]
  norm_num

/-- The a-star of pure red, in closed form. -/
lemma red_lab_a :
    (rgbToLab 255 0 0).a =
      500 * (((0.4124564 / 0.95047 : ℝ)) ^ ((1 : ℝ) / 3) -
        ((0.2126729 : ℝ)) ^ ((1 : ℝ) / 3)) := by
  unfold rgbToLab rgbToXyz xyzToLab labF
  rw [srgbToLinear_255, srgbToLinear_0]
  norm_num

/-- The a-star of pure red is strictly positive. -/
lemma red_a_pos : 0 < (rgbToLab 255 0 0).a := by
  rw [red_lab_a]
  have hmono : ((0.2126729 : ℝ)) ^ ((1 : ℝ) / 3) <
      ((0.4124564 / 0.95047 : ℝ)) ^ ((1 : ℝ) / 3) :=
    Real.rpow_lt_rpow (by norm_num) (by norm_num) (by norm_num)
  linarith

/-- The stored Lab chroma components of a pure-red opaque pixel. -/
lemma AarrOf_red (d : List Nat) (idx : Nat) (h0 : d.getD (4 * idx) 0 = 255)
    (h1 : d.getD (4 * idx + 1) 0 = 0) (h2 : d.getD (4 * idx + 2) 0 = 0)
    (h3 : d.getD (4 * idx + 3) 0 ≠ 0) :
    AarrOf d idx = (rgbToLab 255 0 0).a ∧ BarrOf d idx = (rgbToLab 255 0 0).b := by
  unfold AarrOf BarrOf
  rw [if_neg h3, if_neg h3, h0, h1, h2]
  norm_num

/-- With both pixels of a 2 by 1 red image opaque, the local chroma variance
at (0,0) vanishes and the hue weight is 1. -/
lemma hueWeight_op_eq_one :
    hueWeightAt 2 1 [255, 0, 0, 255, 255, 0, 0, 255] 0 0 = 1 := by
  obtain ⟨ha0, hb0⟩ := AarrOf_red [255, 0, 0, 255, 255, 0, 0, 255] 0
    (by decide) (by decide) (by decide) (by decide)
  obtain ⟨ha1, hb1⟩ := AarrOf_red [255, 0, 0, 255, 255, 0, 0, 255] 1
    (by decide) (by decide) (by decide) (by decide)
  unfold hueWeightAt
  rw [hueSamples_two_one, ha0, hb0, ha1, hb1]
  set a := (rgbToLab 255 0 0).a
  set b := (rgbToLab 255 0 0).b
  simp only [List.length_cons, List.length_nil, List.map_cons, List.map_nil,
    List.sum_cons, List.sum_nil]
  norm_num

/-- With the right-hand neighbour fully transparent (same RGB bytes), its
stored (0,0) sample makes the local chroma variance positive, so the hue
weight at (0,0) drops strictly below 1. -/
lemma hueWeight_mx_lt_one :
    hueWeightAt 2 1 [255, 0, 0, 255, 255, 0, 0, 0] 0 0 < 1 := by
  obtain ⟨ha0, hb0⟩ := AarrOf_red [255, 0, 0, 255, 255, 0, 0, 0] 0
    (by decide) (by decide) (by decide) (by decide)
  obtain ⟨-, ha1, hb1⟩ := transparent_lab_zero [255, 0, 0, 255, 255, 0, 0, 0] 1
    (by decide)
  unfold hueWeightAt HUE_SIGMA_SCALE_LAB
  rw [hueSamples_two_one, ha0, hb0, ha1, hb1]
  set a := (rgbToLab 255 0 0).a with haDef
  set b := (rgbToLab 255 0 0).b with hbDef
  simp only [List.length_cons, List.length_nil, List.map_cons, List.map_nil,
    List.sum_cons, List.sum_nil]
  norm_num
  have hA : a * a / 2 - a / 2 * (a / 2) = a * a / 4 := by ring
  have hB : b * b / 2 - b / 2 * (b / 2) = b * b / 4 := by ring
  rw [hA, hB]
  have hapos : 0 < a * a / 4 := by
    have h := red_a_pos
    rw [← haDef] at h
    nlinarith
  have hbnn : 0 ≤ b * b / 4 := by nlinarith [mul_self_nonneg b]
  have hsum : 0 < a * a / 4 + b * b / 4 := by linarith
  have hs : 0 < Real.sqrt (a * a / 4 + b * b / 4) := Real.sqrt_pos.2 hsum
  rw [max_eq_right (le_of_lt hapos), max_eq_right hbnn]
  have hmin : 0 < min 1 (Real.sqrt (a * a / 4 + b * b / 4) / 5) :=
    lt_min (by norm_num) (div_pos hs (by norm_num))
  linarith

/-- C10: the Lab precompute stores (0,0,0) for a fully transparent pixel;
the 3 by 3 hue-stability window includes every in-bounds neighbour
regardless of its alpha (its sample count depends only on the geometry); in
a 2 by 1 red image the transparent right neighbour contributes the (0, 0)
sample where the opaque one contributes red's (a*, b*), which changes the
hue weight at the opaque pixel (1 versus strictly below 1); and the chosen
palette index of a pixel is computed from that hue weight. -/
theorem hue_weight_alpha_blind :
    (∀ (d : List Nat) (idx : Nat), d.getD (4 * idx + 3) 0 = 0 →
      LarrOf d idx = 0 ∧ AarrOf d idx = 0 ∧ BarrOf d idx = 0) ∧
    (∀ (width height : Nat) (d d2 : List Nat) (x y : Nat),
      (hueSamples width height d x y).length =
        (hueSamples width height d2 x y).length) ∧
    (hueSamples 2 1 [255, 0, 0, 255, 255, 0, 0, 255] 0 0 =
      [((rgbToLab 255 0 0).a, (rgbToLab 255 0 0).b),
       ((rgbToLab 255 0 0).a, (rgbToLab 255 0 0).b)]) ∧
    (hueSamples 2 1 [255, 0, 0, 255, 255, 0, 0, 0] 0 0 =
      [((rgbToLab 255 0 0).a, (rgbToLab 255 0 0).b), (0, 0)]) ∧
    (hueWeightAt 2 1 [255, 0, 0, 255, 255, 0, 0, 255] 0 0 ≠
      hueWeightAt 2 1 [255, 0, 0, 255, 255, 0, 0, 0] 0 0) ∧
    (∀ (width height : Nat) (palette d : List Nat) (idx : Nat),
      pixelBest width height palette d idx =
        refineBest (LarrOf d idx) (AarrOf d idx) (BarrOf d idx)
          (pixelChroma d idx)
          (hueWeightAt width height d (idx % width) (idx / width))
          (paletteLabOf palette) (pixelShortlist palette d idx)) := by
  refine ⟨transparent_lab_zero, hueSamples_length_indep, ?_, ?_, ?_, ?_⟩
  · obtain ⟨ha0, hb0⟩ := AarrOf_red [255, 0, 0, 255, 255, 0, 0, 255] 0
      (by decide) (by decide) (by decide) (by decide)
    obtain ⟨ha1, hb1⟩ := AarrOf_red [255, 0, 0, 255, 255, 0, 0, 255] 1
      (by decide) (by decide) (by decide) (by decide)
    rw [hueSamples_two_one, ha0, hb0, ha1, hb1]
  · obtain ⟨ha0, hb0⟩ := AarrOf_red [255, 0, 0, 255, 255, 0, 0, 0] 0
      (by decide) (by decide) (by decide) (by decide)
    obtain ⟨-, ha1, hb1⟩ := transparent_lab_zero [255, 0, 0, 255, 255, 0, 0, 0] 1
      (by decide)
    rw [hueSamples_two_one, ha0, hb0, ha1, hb1]
  · rw [hueWeight_op_eq_one]
    exact (ne_of_lt hueWeight_mx_lt_one).symm
  · intro width height palette d idx
    rfl

/-- Witness for hue_weight_alpha_blind: a concrete fully transparent pixel
stores Lab (0,0,0). -/
theorem hue_weight_alpha_blind_witness :
    LarrOf [9, 9, 9, 0] 0 = 0 ∧ AarrOf [9, 9, 9, 0] 0 = 0 ∧
      BarrOf [9, 9, 9, 0] 0 = 0 :=
  hue_weight_alpha_blind.1 [9, 9, 9, 0] 0 (by decide)
